import Mathlib

/-! # casbin-sqldb-adapter: row codec and predicate builder

A shallow embedding of `adapter.go` (package `sqldbadapter`).

* Go strings are Lean `String`s, `strings.Join(xs, sep)` is `sep.intercalate xs`,
  a slice `p[:k]` is `p.take k`.
* Go `int` is a 64-bit two's-complement integer: `wrapInt64` reduces an `Int`
  into that range, and it is applied where the source adds two `int`s.
* A slice index that is out of range makes Go panic: `goIndex` returns `none`
  there, and the callers turn `none` into `Ret.panicked`.
* The storage engine (`sqldb.EngineGroup`) and casbin's `persist.LoadPolicyLine`
  are external to the repository. The engine is modelled by the single table
  the adapter talks to plus a script of the outcomes of its next calls;
  `persist.LoadPolicyLine` is a parameter of the load functions.
-/

namespace Sqldbadapter

/-! ## Data model -/

def defaultTableName : String := "casbin_rule"

/-- The persisted row, `type CasbinRule struct`. -/
structure CasbinRule where
  ID : Nat := 0
  PType : String := ""
  V0 : String := ""
  V1 : String := ""
  V2 : String := ""
  V3 : String := ""
  V4 : String := ""
  V5 : String := ""
deriving DecidableEq, Repr

/-- The structured filter, `type Filter struct`. -/
structure Filter where
  PType : List String := []
  V0 : List String := []
  V1 : List String := []
  V2 : List String := []
  V3 : List String := []
  V4 : List String := []
  V5 : List String := []
deriving DecidableEq, Repr

/-! ## Row codec -/

/-- The local `ruleText` of `loadPolicyRuleLine`: the text handed to
`persist.LoadPolicyLine`. The zero value of the Go variable is `""`. -/
def loadPolicyRuleText (rule : CasbinRule) : String :=
  let p := [rule.PType, rule.V0, rule.V1, rule.V2, rule.V3, rule.V4, rule.V5]
  if rule.V5 ≠ "" then ", ".intercalate p
  else if rule.V4 ≠ "" then ", ".intercalate (p.take 6)
  else if rule.V3 ≠ "" then ", ".intercalate (p.take 5)
  else if rule.V2 ≠ "" then ", ".intercalate (p.take 4)
  else if rule.V1 ≠ "" then ", ".intercalate (p.take 3)
  else if rule.V0 ≠ "" then ", ".intercalate (p.take 2)
  else ""

/-- The function `loadPolicyRuleLine`: it computes the rule text and hands it to
`persist.LoadPolicyLine`, whose effect on the model is the parameter
`LoadPolicyLine`. The Go function returns nothing. -/
def loadPolicyRuleLine {M : Type} (LoadPolicyLine : String → M → M)
    (rule : CasbinRule) (model : M) : M :=
  LoadPolicyLine (loadPolicyRuleText rule) model

/-- The function `genPolicyRuleLine`. Every index `rules[i]` is guarded by
`ruleLen > i`, which is the bound Lean asks for. -/
def genPolicyRuleLine (pType : String) (rules : List String) : CasbinRule :=
  let line : CasbinRule := { PType := pType }
  let ruleLen := rules.length
  let line := if h : ruleLen > 0 then { line with V0 := rules[0] } else line
  let line := if h : ruleLen > 1 then { line with V1 := rules[1] } else line
  let line := if h : ruleLen > 2 then { line with V2 := rules[2] } else line
  let line := if h : ruleLen > 3 then { line with V3 := rules[3] } else line
  let line := if h : ruleLen > 4 then { line with V4 := rules[4] } else line
  let line := if h : ruleLen > 5 then { line with V5 := rules[5] } else line
  line

/-! ## Go runtime conventions -/

/-- A Go `int` on a 64-bit platform: the two's-complement wrap of a sum or a
difference of two `int`s. -/
def wrapInt64 (x : Int) : Int :=
  (x + 9223372036854775808) % 18446744073709551616 - 9223372036854775808

/-- The slice index `xs[i]`: `none` is the run-time panic "index out of range". -/
def goIndex (xs : List String) (i : Int) : Option String :=
  if 0 ≤ i ∧ i < (xs.length : Int) then xs[i.toNat]? else none

/-- What a method with result `error` does: it returns `nil`, returns an error
value, or panics. -/
inductive Ret where
  | nil
  | err (msg : String)
  | panicked (msg : String)
deriving DecidableEq, Repr

/-- The Go `error` an engine call gave (`none` is `nil`) as a method result. -/
def Ret.ofError : Option String → Ret
  | none => Ret.nil
  | some msg => Ret.err msg

/-! ## The storage engine (external): one table and a script of outcomes -/

/-- The columns of the rule table, named as in the `db` tags of `CasbinRule`. -/
inductive Column where
  | p_type | v0 | v1 | v2 | v3 | v4 | v5
deriving DecidableEq, Repr

/-- The value a row holds in a column. -/
def CasbinRule.col (r : CasbinRule) : Column → String
  | Column.p_type => r.PType
  | Column.v0 => r.V0
  | Column.v1 => r.V1
  | Column.v2 => r.V2
  | Column.v3 => r.V3
  | Column.v4 => r.V4
  | Column.v5 => r.V5

/-- One `Where` clause: `col = ?` with one value, or `col in (?)` with a slice. -/
inductive Cond where
  | eq (col : Column) (val : String)
  | isIn (col : Column) (vals : List String)
deriving DecidableEq, Repr

/-- Whether a row satisfies a clause; column comparison is equality of strings. -/
def Cond.holds (r : CasbinRule) : Cond → Bool
  | Cond.eq col val => decide (r.col col = val)
  | Cond.isIn col vals => decide (r.col col ∈ vals)

/-- A query under construction, `engine.Table(name)` followed by `Where` calls:
the clauses so far, all of which a selected row satisfies. -/
abbrev Session := List Cond

/-- The call `session.Where(...)`: one more clause. -/
def Session.Where (session : Session) (c : Cond) : Session := session ++ [c]

/-- Whether the session selects the row: every clause holds. -/
def Session.selects (session : Session) (r : CasbinRule) : Bool :=
  session.all (Cond.holds r)

/-- The engine as the adapter sees it: the rows of its table in storage order,
the next value of the auto-increment key, and the outcomes of the next engine
calls (`some msg` fails with that error; past the end of the script every call
succeeds). A call that fails leaves the table as it was. -/
structure EngineGroup where
  rows : List CasbinRule := []
  nextID : Nat := 1
  faults : List (Option String) := []
deriving DecidableEq, Repr

/-- The outcome of the next engine call, and the engine with the script advanced. -/
def EngineGroup.call (e : EngineGroup) : Option String × EngineGroup :=
  match e.faults with
  | [] => (none, e)
  | f :: rest => (f, { e with faults := rest })

/-- Storing one row: the table assigns the surrogate key. -/
def EngineGroup.insert (e : EngineGroup) (r : CasbinRule) : EngineGroup :=
  { e with rows := e.rows ++ [{ r with ID := e.nextID }], nextID := e.nextID + 1 }

/-- The call `session.Find(&rules)`: the selected rows in storage order. -/
def EngineGroup.Find (e : EngineGroup) (session : Session) :
    Option String × List CasbinRule × EngineGroup :=
  match e.call with
  | (some msg, e1) => (some msg, [], e1)
  | (none, e1) => (none, e1.rows.filter session.selects, e1)

/-- The call `Create(row)`. -/
def EngineGroup.Create (e : EngineGroup) (r : CasbinRule) : Option String × EngineGroup :=
  match e.call with
  | (some msg, e1) => (some msg, e1)
  | (none, e1) => (none, e1.insert r)

/-- The call `BulkCreate(rows)`: one statement storing every row in order. -/
def EngineGroup.BulkCreate (e : EngineGroup) (rs : List CasbinRule) :
    Option String × EngineGroup :=
  match e.call with
  | (some msg, e1) => (some msg, e1)
  | (none, e1) => (none, rs.foldl EngineGroup.insert e1)

/-- The call `session.Delete()`: the selected rows leave the table. -/
def EngineGroup.Delete (e : EngineGroup) (session : Session) : Option String × EngineGroup :=
  match e.call with
  | (some msg, e1) => (some msg, e1)
  | (none, e1) => (none, { e1 with rows := e1.rows.filter (fun r => !session.selects r) })

/-- The statement `DELETE FROM table` through `Exec`. -/
def EngineGroup.ExecDeleteAll (e : EngineGroup) : Option String × EngineGroup :=
  match e.call with
  | (some msg, e1) => (some msg, e1)
  | (none, e1) => (none, { e1 with rows := [] })

/-- The statement `SELECT 1 FROM table LIMIT 1` through `Exec`. -/
def EngineGroup.ExecSelectOne (e : EngineGroup) : Option String × EngineGroup :=
  e.call

/-- The call `engine.Tx(fn)`: when `fn` returns an error the table is rolled
back to its content at the start and the error is returned. The function is
`sqldb`'s, not the repository's; this is the contract the specification gives
it ("if any delete fails, all are rolled back"). -/
def EngineGroup.Tx (e : EngineGroup) (fn : EngineGroup → Option String × EngineGroup) :
    Option String × EngineGroup :=
  match fn e with
  | (some msg, e1) => (some msg, { e1 with rows := e.rows })
  | (none, e1) => (none, e1)

/-! ## The policy model (external), as far as `SavePolicy` reads it -/

/-- The part of casbin's `model.Assertion` the adapter reads. -/
structure Assertion where
  Policy : List (List String) := []
deriving DecidableEq, Repr

/-- The map `model.AssertionMap`, as the list of its entries in the order one
`range` over it visits them. -/
abbrev AssertionMap := List (String × Assertion)

/-- The map `model.Model` from section name to assertions (a missing section is
the empty map). -/
abbrev Model := String → AssertionMap

/-! ## The adapter -/

/-- The adapter, `type Adapter struct`. -/
structure Adapter where
  tableName : String
  isFiltered : Bool
  engine : EngineGroup
deriving DecidableEq, Repr

/-- The fields of `AdapterOptions` the constructor reads besides the connection
settings. -/
structure AdapterOptions where
  DBEngine : Option EngineGroup := none
  TableName : String := ""
deriving DecidableEq, Repr

/-- The value passed for the parameter `filter interface{}`: a `Filter`, or a
value of any other dynamic type. -/
inductive FilterArg where
  | filter (f : Filter)
  | other
deriving DecidableEq, Repr

/-- The method `ensureTable`: `some msg` is the panic. -/
def Adapter.ensureTable (a : Adapter) : Option String × Adapter :=
  match a.engine.ExecSelectOne with
  | (some msg, e) => (some msg, { a with engine := e })
  | (none, e) => (none, { a with engine := e })

/-- The method `cleanTable`: `some msg` is the panic. -/
def Adapter.cleanTable (a : Adapter) : Option String × Adapter :=
  match a.engine.ExecDeleteAll with
  | (some msg, e) => (some msg, { a with engine := e })
  | (none, e) => (none, { a with engine := e })

/-- The constructor `NewAdapter`; `opened` is what `sqldb.OpenSingleDBEngine`
returned, and `Except.error` is the panic. -/
def NewAdapter (opened : Except String EngineGroup) : Except String Adapter :=
  match opened with
  | Except.error msg => Except.error msg
  | Except.ok engine =>
    Except.ok { tableName := defaultTableName, isFiltered := false, engine := engine }

/-- The constructor `NewAdapterWithDBEngine`; `Except.error` is the panic. -/
def NewAdapterWithDBEngine (engine : EngineGroup) : Except String Adapter :=
  let a : Adapter := { tableName := defaultTableName, isFiltered := false, engine := engine }
  match a.ensureTable with
  | (some msg, _) => Except.error msg
  | (none, a) => Except.ok a

/-- The constructor `NewAdapterWithOptions`; `opened` is what
`sqldb.OpenSingleDBEngine` returns for the options, and `Except.error` is the
panic. -/
def NewAdapterWithOptions (opts : AdapterOptions) (opened : Except String EngineGroup) :
    Except String Adapter :=
  let tableName := if opts.TableName ≠ "" then opts.TableName else defaultTableName
  let engine : Except String EngineGroup :=
    match opts.DBEngine with
    | some engine => Except.ok engine
    | none => opened
  match engine with
  | Except.error msg => Except.error msg
  | Except.ok engine =>
    let a : Adapter := { tableName := tableName, isFiltered := false, engine := engine }
    match a.ensureTable with
    | (some msg, _) => Except.error msg
    | (none, a) => Except.ok a

/-- The method `LoadPolicy`: the result, the adapter and the model afterwards. -/
def Adapter.LoadPolicy {M : Type} (LoadPolicyLine : String → M → M) (a : Adapter)
    (model : M) : Ret × Adapter × M :=
  match a.engine.Find [] with
  | (some msg, _, e) => (Ret.err msg, { a with engine := e }, model)
  | (none, rules, e) =>
    (Ret.nil, { a with engine := e },
      rules.foldl (fun m rule => loadPolicyRuleLine LoadPolicyLine rule m) model)

/-- The two loops of `SavePolicy` over one section: every rule of every policy
type is encoded and appended. -/
def appendRuleLines (section_ : AssertionMap) (ruleLines : List CasbinRule) :
    List CasbinRule :=
  section_.foldl
    (fun acc entry =>
      entry.2.Policy.foldl (fun acc rules => acc ++ [genPolicyRuleLine entry.1 rules]) acc)
    ruleLines

/-- The method `SavePolicy`. -/
def Adapter.SavePolicy (a : Adapter) (model : Model) : Ret × Adapter :=
  match a.cleanTable with
  | (some msg, a) => (Ret.panicked msg, a)
  | (none, a) =>
    let ruleLines : List CasbinRule := []
    let ruleLines := appendRuleLines (model "p") ruleLines
    let ruleLines := appendRuleLines (model "g") ruleLines
    match a.engine.BulkCreate ruleLines with
    | (err, e) => (Ret.ofError err, { a with engine := e })

/-- The method `AddPolicy`. -/
def Adapter.AddPolicy (a : Adapter) (_sec : String) (pType : String) (rules : List String) :
    Ret × Adapter :=
  let ruleLine := genPolicyRuleLine pType rules
  match a.engine.Create ruleLine with
  | (err, e) => (Ret.ofError err, { a with engine := e })

/-- The method `BulkAddPolicy`. -/
def Adapter.BulkAddPolicy (a : Adapter) (_sec : String) (pType : String)
    (rules : List (List String)) : Ret × Adapter :=
  let ruleLines := rules.foldl (fun acc rule => acc ++ [genPolicyRuleLine pType rule]) []
  match a.engine.BulkCreate ruleLines with
  | (err, e) => (Ret.ofError err, { a with engine := e })

/-- The session `Where(map[string]interface{}{...})` of `RemovePolicy` and
`BulkRemovePolicy`: all seven columns equal those of the encoded row. -/
def exactMatchSession (ruleLine : CasbinRule) : Session :=
  [Cond.eq Column.p_type ruleLine.PType,
   Cond.eq Column.v0 ruleLine.V0,
   Cond.eq Column.v1 ruleLine.V1,
   Cond.eq Column.v2 ruleLine.V2,
   Cond.eq Column.v3 ruleLine.V3,
   Cond.eq Column.v4 ruleLine.V4,
   Cond.eq Column.v5 ruleLine.V5]

/-- The method `RemovePolicy`. -/
def Adapter.RemovePolicy (a : Adapter) (_sec : String) (pType : String) (rules : List String) :
    Ret × Adapter :=
  let ruleLine := genPolicyRuleLine pType rules
  match a.engine.Delete (exactMatchSession ruleLine) with
  | (err, e) => (Ret.ofError err, { a with engine := e })

/-- The body of the transaction of `BulkRemovePolicy`: one delete per rule,
stopping at the first error. -/
def bulkRemoveBody (pType : String) : List (List String) → EngineGroup →
    Option String × EngineGroup
  | [], db => (none, db)
  | rule :: rest, db =>
    let ruleLine := genPolicyRuleLine pType rule
    match db.Delete (exactMatchSession ruleLine) with
    | (some msg, db1) => (some msg, db1)
    | (none, db1) => bulkRemoveBody pType rest db1

/-- The method `BulkRemovePolicy`. -/
def Adapter.BulkRemovePolicy (a : Adapter) (_sec : String) (pType : String)
    (rules : List (List String)) : Ret × Adapter :=
  match a.engine.Tx (bulkRemoveBody pType rules) with
  | (err, e) => (Ret.ofError err, { a with engine := e })

/-- One of the six guarded blocks of `RemoveFilteredPolicy`,
`if fieldIndex <= c && idx > c && fieldValues[c-fieldIndex] != "" { session = session.Where(col = fieldValues[c-fieldIndex]) }`;
`none` is the index panic. -/
def filterFieldStep (col : Column) (c : Int) (fieldIndex idx : Int)
    (fieldValues : List String) (session : Session) : Option Session :=
  if fieldIndex ≤ c ∧ idx > c then
    match goIndex fieldValues (wrapInt64 (c - fieldIndex)) with
    | none => none
    | some v => if v ≠ "" then some (session.Where (Cond.eq col v)) else some session
  else some session

/-- The session `RemoveFilteredPolicy` builds; `none` is the index panic. -/
def removeFilteredSession (pType : String) (fieldIndex : Int) (fieldValues : List String) :
    Option Session := do
  let session := Session.Where [] (Cond.eq Column.p_type pType)
  let idx := wrapInt64 (fieldIndex + (fieldValues.length : Int))
  let session ← filterFieldStep Column.v0 0 fieldIndex idx fieldValues session
  let session ← filterFieldStep Column.v1 1 fieldIndex idx fieldValues session
  let session ← filterFieldStep Column.v2 2 fieldIndex idx fieldValues session
  let session ← filterFieldStep Column.v3 3 fieldIndex idx fieldValues session
  let session ← filterFieldStep Column.v4 4 fieldIndex idx fieldValues session
  let session ← filterFieldStep Column.v5 5 fieldIndex idx fieldValues session
  return session

/-- The method `RemoveFilteredPolicy`. -/
def Adapter.RemoveFilteredPolicy (a : Adapter) (_sec : String) (pType : String)
    (fieldIndex : Int) (fieldValues : List String) : Ret × Adapter :=
  match removeFilteredSession pType fieldIndex fieldValues with
  | none => (Ret.panicked "index out of range", a)
  | some session =>
    match a.engine.Delete session with
    | (err, e) => (Ret.ofError err, { a with engine := e })

/-- The `switch len(fvs[idx].val)` in the loop of `LoadFilteredPolicy`, for one
`(col, val)` pair. -/
def filterWhereStep (session : Session) (col : Column) (val : List String) : Session :=
  match val with
  | [] => session
  | [val0] => session.Where (Cond.eq col val0)
  | _ => session.Where (Cond.isIn col val)

/-- The loop of `LoadFilteredPolicy` over the seven `(col, val)` pairs. -/
def filterSession (filterValue : Filter) : Session :=
  let fvs : List (Column × List String) :=
    [(Column.p_type, filterValue.PType),
     (Column.v0, filterValue.V0),
     (Column.v1, filterValue.V1),
     (Column.v2, filterValue.V2),
     (Column.v3, filterValue.V3),
     (Column.v4, filterValue.V4),
     (Column.v5, filterValue.V5)]
  fvs.foldl (fun session fv => filterWhereStep session fv.1 fv.2) []

/-- The method `LoadFilteredPolicy`: the result, the adapter and the model
afterwards. -/
def Adapter.LoadFilteredPolicy {M : Type} (LoadPolicyLine : String → M → M) (a : Adapter)
    (model : M) (filter : FilterArg) : Ret × Adapter × M :=
  match filter with
  | FilterArg.other => (Ret.err "invalid filter type", a, model)
  | FilterArg.filter filterValue =>
    match a.engine.Find (filterSession filterValue) with
    | (some msg, _, e) => (Ret.err msg, { a with engine := e }, model)
    | (none, rules, e) =>
      (Ret.nil, { a with engine := e, isFiltered := true },
        rules.foldl (fun m rule => loadPolicyRuleLine LoadPolicyLine rule m) model)

/-- The method `IsFiltered`. -/
def Adapter.IsFiltered (a : Adapter) : Bool := a.isFiltered

/-! ## Sequences of adapter calls -/

/-- One call of an adapter method, with its arguments. -/
inductive Op (M : Type) where
  | loadPolicy (model : M)
  | savePolicy (model : Model)
  | addPolicy (sec pType : String) (rules : List String)
  | bulkAddPolicy (sec pType : String) (rules : List (List String))
  | removePolicy (sec pType : String) (rules : List String)
  | bulkRemovePolicy (sec pType : String) (rules : List (List String))
  | removeFilteredPolicy (sec pType : String) (fieldIndex : Int) (fieldValues : List String)
  | loadFilteredPolicy (model : M) (filter : FilterArg)
  | isFiltered

/-- Whether the call is a `LoadFilteredPolicy`. -/
def Op.isLoadFiltered {M : Type} : Op M → Bool
  | Op.loadFilteredPolicy _ _ => true
  | _ => false

/-- The result of one call and the adapter after it. -/
def Adapter.step {M : Type} (LoadPolicyLine : String → M → M) (a : Adapter) :
    Op M → Ret × Adapter
  | Op.loadPolicy model =>
    match a.LoadPolicy LoadPolicyLine model with
    | (ret, a1, _) => (ret, a1)
  | Op.savePolicy model => a.SavePolicy model
  | Op.addPolicy sec pType rules => a.AddPolicy sec pType rules
  | Op.bulkAddPolicy sec pType rules => a.BulkAddPolicy sec pType rules
  | Op.removePolicy sec pType rules => a.RemovePolicy sec pType rules
  | Op.bulkRemovePolicy sec pType rules => a.BulkRemovePolicy sec pType rules
  | Op.removeFilteredPolicy sec pType fieldIndex fieldValues =>
    a.RemoveFilteredPolicy sec pType fieldIndex fieldValues
  | Op.loadFilteredPolicy model filter =>
    match a.LoadFilteredPolicy LoadPolicyLine model filter with
    | (ret, a1, _) => (ret, a1)
  | Op.isFiltered => (Ret.nil, a)

/-- The adapter after a sequence of calls (a caller that recovers from a panic
goes on with the adapter as the panic left it). -/
def Adapter.run {M : Type} (LoadPolicyLine : String → M → M) (a : Adapter) :
    List (Op M) → Adapter
  | [] => a
  | op :: ops => Adapter.run LoadPolicyLine (a.step LoadPolicyLine op).2 ops

/-- The results of the calls of a sequence, each with its call. -/
def Adapter.trace {M : Type} (LoadPolicyLine : String → M → M) (a : Adapter) :
    List (Op M) → List (Op M × Ret)
  | [] => []
  | op :: ops =>
    (op, (a.step LoadPolicyLine op).1) ::
      Adapter.trace LoadPolicyLine (a.step LoadPolicyLine op).2 ops

/-! ## Specification-side vocabulary -/

/-- The engine's next `n` calls succeed. -/
def EngineGroup.succeeds (n : Nat) (e : EngineGroup) : Prop :=
  ∀ f ∈ e.faults.take n, f = none

instance (n : Nat) (e : EngineGroup) : Decidable (e.succeeds n) := by
  unfold EngineGroup.succeeds; infer_instance

/-- The rule texts of a section of the model, policy type by policy type: each
rule's fields after its policy type, joined with `", "`. -/
def sectionTexts (asts : AssertionMap) : List String :=
  asts.flatMap (fun entry => entry.2.Policy.map (fun rule => ", ".intercalate (entry.1 :: rule)))

/-- Every rule of the section has between one and six arguments, none empty. -/
def sectionWellFormed (asts : AssertionMap) : Prop :=
  ∀ entry ∈ asts, ∀ rule ∈ entry.2.Policy,
    (1 ≤ rule.length ∧ rule.length ≤ 6) ∧ ∀ x ∈ rule, x ≠ ""

/-- The column `v{c}` for `c` in `0..5`. -/
def vColumn : Nat → Column
  | 0 => Column.v0
  | 1 => Column.v1
  | 2 => Column.v2
  | 3 => Column.v3
  | 4 => Column.v4
  | _ => Column.v5

/-- The value the offset filter demands of column `v{c}`, when it constrains it:
`fieldValues[c - fieldIndex]` when `fieldIndex <= c < fieldIndex + len(fieldValues)`
and that value is non-empty. -/
def offsetDemand (fieldIndex : Int) (fieldValues : List String) (c : Nat) : Option String :=
  if fieldIndex ≤ (c : Int) ∧ (c : Int) < fieldIndex + (fieldValues.length : Int) then
    match fieldValues[((c : Int) - fieldIndex).toNat]? with
    | some v => if v ≠ "" then some v else none
    | none => none
  else none

/-- The clauses the specification lists for the offset filter besides the one on
`p_type`: one equality per constrained column, columns in increasing order. -/
def offsetConds (fieldIndex : Int) (fieldValues : List String) : List Cond :=
  (List.range 6).filterMap
    (fun c => (offsetDemand fieldIndex fieldValues c).map (Cond.eq (vColumn c)))

/-- The candidate list a filter holds for a column. -/
def Filter.candidates (f : Filter) : Column → List String
  | Column.p_type => f.PType
  | Column.v0 => f.V0
  | Column.v1 => f.V1
  | Column.v2 => f.V2
  | Column.v3 => f.V3
  | Column.v4 => f.V4
  | Column.v5 => f.V5

/-- The seven columns in the order `LoadFilteredPolicy` visits them. -/
def allColumns : List Column :=
  [Column.p_type, Column.v0, Column.v1, Column.v2, Column.v3, Column.v4, Column.v5]

/-- The clause the specification gives a column with the candidate list `vals`:
none for the empty list, equality for one value, `IN` for several. -/
def candidateCond (col : Column) (vals : List String) : Option Cond :=
  match vals with
  | [] => none
  | [val0] => some (Cond.eq col val0)
  | _ => some (Cond.isIn col vals)

instance (asts : AssertionMap) : Decidable (sectionWellFormed asts) := by
  unfold sectionWellFormed; infer_instance

/-- A model holding the policy the repository's tests save and load back: four
"p" rules and one "g" rule. -/
def exampleModel : Model := fun sec =>
  if sec = "p" then
    [("p", { Policy := [["alice", "data1", "read"], ["bob", "data2", "write"],
        ["data2_admin", "data2", "read"], ["data2_admin", "data2", "write"]] })]
  else if sec = "g" then [("g", { Policy := [["alice", "data2_admin"]] })]
  else []

/-- An adapter on an empty table whose engine never fails. -/
def exampleAdapter : Adapter :=
  { tableName := defaultTableName, isFiltered := false, engine := {} }

/-- An adapter whose table already holds three rows, one of them twice. -/
def busyAdapter : Adapter :=
  { tableName := defaultTableName, isFiltered := false,
    engine := { rows := [{ ID := 1, PType := "p", V0 := "alice", V1 := "data1", V2 := "read" },
                         { ID := 2, PType := "p", V0 := "bob", V1 := "data2", V2 := "write" },
                         { ID := 3, PType := "p", V0 := "alice", V1 := "data1", V2 := "read" }],
                nextID := 4 } }

/-- A policy model that records the texts it is fed, `persist.LoadPolicyLine`
standing for "append the line". -/
def recordLine (text : String) (model : List String) : List String := model ++ [text]

/-- A row with `v0` and `v2` set and every other field empty. -/
def gappedRow : CasbinRule := { PType := "p", V0 := "alice", V2 := "read" }

/-- The row is left-packed: no field `v{n}` is non-empty while a field `v{m}`
with `m < n` is empty. -/
def leftPacked (r : CasbinRule) : Prop :=
  ∀ m n, m < n → n ≤ 5 → r.col (vColumn n) ≠ "" → r.col (vColumn m) ≠ ""

/-- An adapter on an empty table whose engine fails its first call. -/
def failingAdapter : Adapter :=
  { tableName := defaultTableName, isFiltered := false,
    engine := { faults := [some "connection refused"] } }

/-- A sequence of calls: a filtered load, then an unfiltered load, a filtered
load with a value that is no `Filter`, and a save. -/
def exampleCalls : List (Op (List String)) :=
  [Op.loadFilteredPolicy [] (FilterArg.filter { V0 := ["alice"] }),
   Op.loadPolicy [],
   Op.loadFilteredPolicy [] FilterArg.other,
   Op.savePolicy exampleModel]

/-- A policy model that keeps the lines it accepted and the lines it rejected. -/
structure AuditedModel where
  accepted : List String := []
  rejected : List String := []
deriving DecidableEq, Repr

/-- The effect of `persist.LoadPolicyLine` on a model that knows no policy type
`q`: the line `"q, mallory"` is rejected, every other line is accepted. -/
def auditLine (text : String) (model : AuditedModel) : AuditedModel :=
  if text = "q, mallory" then { model with rejected := model.rejected ++ [text] }
  else { model with accepted := model.accepted ++ [text] }

/-- An adapter whose table holds a row the audited model rejects, followed by a
row it accepts; the engine never fails. -/
def mixedAdapter : Adapter :=
  { tableName := defaultTableName, isFiltered := false,
    engine := { rows := [{ ID := 1, PType := "q", V0 := "mallory" },
                         { ID := 2, PType := "p", V0 := "bob", V1 := "data2", V2 := "write" }],
                nextID := 3 } }

/-- The engine's first `k` calls succeed and the next one fails with `msg`. -/
def EngineGroup.failsAt (e : EngineGroup) (k : Nat) (msg : String) : Prop :=
  e.succeeds k ∧ e.faults[k]? = some (some msg)

instance (e : EngineGroup) (k : Nat) (msg : String) : Decidable (e.failsAt k msg) := by
  unfold EngineGroup.failsAt; infer_instance

/-- A row without its surrogate key: the key is set to the zero value, which is
what `genPolicyRuleLine` leaves there. -/
def CasbinRule.withoutID (r : CasbinRule) : CasbinRule := { r with ID := 0 }

/-- The rows keyed consecutively from `n` on, as the table keys rows stored one
after the other. -/
def keyedFrom (n : Nat) : List CasbinRule → List CasbinRule
  | [] => []
  | r :: rs => { r with ID := n } :: keyedFrom (n + 1) rs

/-- The encoded rules of a section of the model, policy type by policy type. -/
def sectionRuleLines (asts : AssertionMap) : List CasbinRule :=
  asts.flatMap (fun entry => entry.2.Policy.map (genPolicyRuleLine entry.1))

/-- An adapter like `busyAdapter` whose engine accepts one call and fails the
second. -/
def flakyAdapter : Adapter :=
  { busyAdapter with
    engine := { busyAdapter.engine with faults := [none, some "deadlock"] } }

/-- The argument list with its trailing run of empty strings removed. -/
def dropTrailingEmpty (args : List String) : List String :=
  (args.reverse.dropWhile (fun x => decide (x = ""))).reverse

/-- The fields `loadPolicyRuleLine` joins into the rule text: the slice of
`p = [PType, V0, ..., V5]` its branch takes, and no field when no branch is
taken. -/
def emittedFields (rule : CasbinRule) : List String :=
  let p := [rule.PType, rule.V0, rule.V1, rule.V2, rule.V3, rule.V4, rule.V5]
  if rule.V5 ≠ "" then p
  else if rule.V4 ≠ "" then p.take 6
  else if rule.V3 ≠ "" then p.take 5
  else if rule.V2 ≠ "" then p.take 4
  else if rule.V1 ≠ "" then p.take 3
  else if rule.V0 ≠ "" then p.take 2
  else []

/-! ## Lemmas: the engine -/

theorem call_of_succeeds {n : Nat} {e : EngineGroup} (h : e.succeeds (n + 1)) :
    e.call.1 = none ∧ e.call.2.succeeds n ∧ e.call.2.rows = e.rows ∧
      e.call.2.nextID = e.nextID := by
  obtain ⟨rows, nextID, faults⟩ := e
  cases faults with
  | nil => exact ⟨rfl, by simp [EngineGroup.call, EngineGroup.succeeds], rfl, rfl⟩
  | cons f rest =>
    simp only [EngineGroup.succeeds, List.take_succ_cons, List.mem_cons, forall_eq_or_imp] at h
    exact ⟨h.1, h.2, rfl, rfl⟩

theorem call_rows (e : EngineGroup) : e.call.2.rows = e.rows := by
  obtain ⟨rows, nextID, faults⟩ := e
  cases faults <;> rfl

theorem loadPolicyRuleText_withID (r : CasbinRule) (n : Nat) :
    loadPolicyRuleText { r with ID := n } = loadPolicyRuleText r := rfl

theorem foldl_insert_texts (rs : List CasbinRule) (e : EngineGroup) :
    (rs.foldl EngineGroup.insert e).rows.map loadPolicyRuleText =
      e.rows.map loadPolicyRuleText ++ rs.map loadPolicyRuleText := by
  induction rs generalizing e with
  | nil => simp
  | cons r rs ih =>
    rw [List.foldl_cons, ih]
    simp [EngineGroup.insert, loadPolicyRuleText_withID]

theorem foldl_insert_faults (rs : List CasbinRule) (e : EngineGroup) :
    (rs.foldl EngineGroup.insert e).faults = e.faults := by
  induction rs generalizing e with
  | nil => rfl
  | cons r rs ih => rw [List.foldl_cons, ih]; rfl

theorem ExecDeleteAll_of_succeeds {n : Nat} {e : EngineGroup} (h : e.succeeds (n + 1)) :
    e.ExecDeleteAll = (none, { e.call.2 with rows := [] }) := by
  have hc := (call_of_succeeds h).1
  unfold EngineGroup.ExecDeleteAll
  rcases hcall : e.call with ⟨o, e1⟩
  rw [hcall] at hc
  simp only at hc
  subst hc
  rfl

theorem BulkCreate_of_succeeds {n : Nat} {e : EngineGroup} (h : e.succeeds (n + 1))
    (rs : List CasbinRule) :
    e.BulkCreate rs = (none, rs.foldl EngineGroup.insert e.call.2) := by
  have hc := (call_of_succeeds h).1
  unfold EngineGroup.BulkCreate
  rcases hcall : e.call with ⟨o, e1⟩
  rw [hcall] at hc
  simp only at hc
  subst hc
  rfl

theorem Find_of_succeeds {n : Nat} {e : EngineGroup} (h : e.succeeds (n + 1))
    (session : Session) :
    e.Find session = (none, e.rows.filter session.selects, e.call.2) := by
  have hc := (call_of_succeeds h).1
  have hr := call_rows e
  unfold EngineGroup.Find
  rcases hcall : e.call with ⟨o, e1⟩
  rw [hcall] at hc hr
  simp only at hc hr
  subst hc
  simp only [hr]

theorem call_faults (e : EngineGroup) : e.call.2.faults = e.faults.tail := by
  obtain ⟨rows, nextID, faults⟩ := e
  cases faults <;> rfl

theorem call_nextID (e : EngineGroup) : e.call.2.nextID = e.nextID := by
  obtain ⟨rows, nextID, faults⟩ := e
  cases faults <;> rfl

theorem succeeds_congr {n : Nat} {e1 e2 : EngineGroup} (h : e1.faults = e2.faults) :
    e1.succeeds n ↔ e2.succeeds n := by
  simp only [EngineGroup.succeeds, h]

theorem failsAt_zero {e : EngineGroup} {msg : String} (h : e.failsAt 0 msg) :
    e.call.1 = some msg := by
  obtain ⟨rows, nextID, faults⟩ := e
  obtain ⟨_, hk⟩ := h
  cases faults with
  | nil => simp at hk
  | cons f rest =>
    simp only [List.getElem?_cons_zero, Option.some.injEq] at hk
    subst hk
    rfl

theorem failsAt_succ {e : EngineGroup} {k : Nat} {msg : String} (h : e.failsAt (k + 1) msg) :
    e.call.1 = none ∧ e.call.2.failsAt k msg := by
  obtain ⟨hs, hk⟩ := h
  have hc := call_of_succeeds hs
  refine ⟨hc.1, hc.2.1, ?_⟩
  rw [call_faults]
  obtain ⟨rows, nextID, faults⟩ := e
  cases faults with
  | nil => simp at hk
  | cons f rest => simpa using hk

theorem Create_of_call_ok {e : EngineGroup} (h : e.call.1 = none) (r : CasbinRule) :
    e.Create r = (none, e.call.2.insert r) := by
  unfold EngineGroup.Create
  rcases hcall : e.call with ⟨o, e1⟩
  rw [hcall] at h
  simp only at h
  subst h
  rfl

theorem BulkCreate_of_call_ok {e : EngineGroup} (h : e.call.1 = none) (rs : List CasbinRule) :
    e.BulkCreate rs = (none, rs.foldl EngineGroup.insert e.call.2) := by
  unfold EngineGroup.BulkCreate
  rcases hcall : e.call with ⟨o, e1⟩
  rw [hcall] at h
  simp only at h
  subst h
  rfl

theorem BulkCreate_of_call_err {e : EngineGroup} {msg : String} (h : e.call.1 = some msg)
    (rs : List CasbinRule) : e.BulkCreate rs = (some msg, e.call.2) := by
  unfold EngineGroup.BulkCreate
  rcases hcall : e.call with ⟨o, e1⟩
  rw [hcall] at h
  simp only at h
  subst h
  rfl

theorem Create_of_call_err {e : EngineGroup} {msg : String} (h : e.call.1 = some msg)
    (r : CasbinRule) : e.Create r = (some msg, e.call.2) := by
  unfold EngineGroup.Create
  rcases hcall : e.call with ⟨o, e1⟩
  rw [hcall] at h
  simp only at h
  subst h
  rfl

theorem ExecDeleteAll_of_call_ok {e : EngineGroup} (h : e.call.1 = none) :
    e.ExecDeleteAll = (none, { e.call.2 with rows := [] }) := by
  unfold EngineGroup.ExecDeleteAll
  rcases hcall : e.call with ⟨o, e1⟩
  rw [hcall] at h
  simp only at h
  subst h
  rfl

theorem ExecDeleteAll_of_call_err {e : EngineGroup} {msg : String} (h : e.call.1 = some msg) :
    e.ExecDeleteAll = (some msg, e.call.2) := by
  unfold EngineGroup.ExecDeleteAll
  rcases hcall : e.call with ⟨o, e1⟩
  rw [hcall] at h
  simp only at h
  subst h
  rfl

theorem foldl_insert_eq (rs : List CasbinRule) (e : EngineGroup) :
    rs.foldl EngineGroup.insert e =
      { e with rows := e.rows ++ keyedFrom e.nextID rs, nextID := e.nextID + rs.length } := by
  induction rs generalizing e with
  | nil => simp [keyedFrom]
  | cons r rs ih =>
    rw [List.foldl_cons, ih]
    simp only [EngineGroup.insert, keyedFrom, List.append_assoc, List.singleton_append,
      List.length_cons]
    rw [show e.nextID + 1 + rs.length = e.nextID + (rs.length + 1) by omega]

theorem keyedFrom_withoutID (n : Nat) (rs : List CasbinRule) :
    (keyedFrom n rs).map CasbinRule.withoutID = rs.map CasbinRule.withoutID := by
  induction rs generalizing n with
  | nil => rfl
  | cons r rs ih => simp [keyedFrom, ih, CasbinRule.withoutID]

theorem keyedFrom_append (n : Nat) (rs ts : List CasbinRule) :
    keyedFrom n (rs ++ ts) = keyedFrom n rs ++ keyedFrom (n + rs.length) ts := by
  induction rs generalizing n with
  | nil => simp [keyedFrom]
  | cons r rs ih =>
    rw [List.cons_append, keyedFrom, keyedFrom, ih, List.length_cons, List.cons_append,
      show n + (rs.length + 1) = n + 1 + rs.length by omega]

theorem genPolicyRuleLine_withoutID (pType : String) (args : List String) :
    (genPolicyRuleLine pType args).withoutID = genPolicyRuleLine pType args := by
  rcases args with _ | ⟨a0, _ | ⟨a1, _ | ⟨a2, _ | ⟨a3, _ | ⟨a4, _ | ⟨a5, rest⟩⟩⟩⟩⟩⟩ <;>
    simp [genPolicyRuleLine, CasbinRule.withoutID]

/-! ## Lemmas: the row codec -/

theorem foldl_append_singleton {α β : Type} (f : α → β) (xs : List α) (acc : List β) :
    xs.foldl (fun acc x => acc ++ [f x]) acc = acc ++ xs.map f := by
  induction xs generalizing acc with
  | nil => simp
  | cons x xs ih => simp [ih]

theorem appendRuleLines_eq (asts : AssertionMap) (acc : List CasbinRule) :
    appendRuleLines asts acc =
      acc ++ asts.flatMap (fun entry => entry.2.Policy.map (genPolicyRuleLine entry.1)) := by
  unfold appendRuleLines
  induction asts generalizing acc with
  | nil => simp
  | cons entry asts ih =>
    rw [List.foldl_cons, ih, foldl_append_singleton]
    simp [List.flatMap_cons]

/-- Encode then decode, for one to six non-empty arguments. -/
theorem roundtrip_text (pType : String) (args : List String)
    (hlen : 1 ≤ args.length ∧ args.length ≤ 6) (hne : ∀ x ∈ args, x ≠ "") :
    loadPolicyRuleText (genPolicyRuleLine pType args) = ", ".intercalate (pType :: args) := by
  match args, hlen, hne with
  | [a], _, hne =>
    have ha := hne a (by simp)
    simp [loadPolicyRuleText, genPolicyRuleLine, ha]
  | [a, b], _, hne =>
    have hb := hne b (by simp)
    simp [loadPolicyRuleText, genPolicyRuleLine, hb]
  | [a, b, c], _, hne =>
    have hc := hne c (by simp)
    simp [loadPolicyRuleText, genPolicyRuleLine, hc]
  | [a, b, c, d], _, hne =>
    have hd := hne d (by simp)
    simp [loadPolicyRuleText, genPolicyRuleLine, hd]
  | [a, b, c, d, e], _, hne =>
    have he := hne e (by simp)
    simp [loadPolicyRuleText, genPolicyRuleLine, he]
  | [a, b, c, d, e, f], _, hne =>
    have hf := hne f (by simp)
    simp [loadPolicyRuleText, genPolicyRuleLine, hf]
  | [], hlen, _ => simp at hlen
  | _ :: _ :: _ :: _ :: _ :: _ :: _ :: _, hlen, _ => simp at hlen

theorem sectionTexts_of_wellFormed (asts : AssertionMap) (h : sectionWellFormed asts) :
    (asts.flatMap (fun entry => entry.2.Policy.map (genPolicyRuleLine entry.1))).map
      loadPolicyRuleText = sectionTexts asts := by
  unfold sectionTexts
  induction asts with
  | nil => simp
  | cons entry asts ih =>
    have hrest : sectionWellFormed asts := fun en hen => h en (List.mem_cons_of_mem _ hen)
    have hentry := h entry (List.mem_cons_self _ _)
    rw [List.flatMap_cons, List.flatMap_cons, List.map_append, ih hrest]
    congr 1
    rw [List.map_map]
    apply List.map_congr_left
    intro rule hrule
    exact roundtrip_text entry.1 rule (hentry rule hrule).1 (hentry rule hrule).2

theorem genPolicyRuleLine_col (pType : String) (args : List String) (i : Nat) (hi : i ≤ 5) :
    (genPolicyRuleLine pType args).col (vColumn i) = args.getD i "" := by
  rcases args with _ | ⟨a0, _ | ⟨a1, _ | ⟨a2, _ | ⟨a3, _ | ⟨a4, _ | ⟨a5, rest⟩⟩⟩⟩⟩⟩ <;>
    interval_cases i <;> simp [genPolicyRuleLine, vColumn, CasbinRule.col]

theorem genPolicyRuleLine_take (pType : String) (args : List String) :
    genPolicyRuleLine pType args = genPolicyRuleLine pType (args.take 6) := by
  rcases args with _ | ⟨a0, _ | ⟨a1, _ | ⟨a2, _ | ⟨a3, _ | ⟨a4, _ | ⟨a5, rest⟩⟩⟩⟩⟩⟩ <;>
    simp [genPolicyRuleLine]

theorem getD_ne_of_all_ne (args : List String) (h : ∀ x ∈ args, x ≠ "") (m n : Nat)
    (hmn : m < n) (hn : args.getD n "" ≠ "") : args.getD m "" ≠ "" := by
  have hlt : n < args.length := by
    by_contra hge
    exact hn (List.getD_eq_default _ _ (Nat.le_of_not_lt hge))
  have hm : m < args.length := by omega
  rw [List.getD_eq_getElem _ _ hm]
  exact h _ (List.getElem_mem hm)

theorem Find_of_call_err {e : EngineGroup} {msg : String} (h : e.call.1 = some msg)
    (session : Session) : e.Find session = (some msg, [], e.call.2) := by
  unfold EngineGroup.Find
  rcases hcall : e.call with ⟨o, e1⟩
  rw [hcall] at h
  simp only at h
  subst h
  rfl

theorem loadPolicyRuleText_eq_join (rule : CasbinRule) :
    loadPolicyRuleText rule = ", ".intercalate (emittedFields rule) := by
  unfold loadPolicyRuleText emittedFields
  simp only []
  split_ifs <;> rfl

theorem emittedFields_genPolicyRuleLine (pType : String) (args : List String)
    (hlen : args.length ≤ 6) :
    emittedFields (genPolicyRuleLine pType args) =
      if dropTrailingEmpty args = [] then [] else pType :: dropTrailingEmpty args := by
  rcases args with _ | ⟨a0, _ | ⟨a1, _ | ⟨a2, _ | ⟨a3, _ | ⟨a4, _ | ⟨a5, _ | ⟨a6, rest⟩⟩⟩⟩⟩⟩⟩
  · simp [emittedFields, genPolicyRuleLine, dropTrailingEmpty]
  · by_cases h0 : a0 = "" <;>
      simp [emittedFields, genPolicyRuleLine, dropTrailingEmpty, List.dropWhile, h0]
  · by_cases h1 : a1 = "" <;> by_cases h0 : a0 = "" <;>
      simp [emittedFields, genPolicyRuleLine, dropTrailingEmpty, List.dropWhile, h0, h1]
  · by_cases h2 : a2 = "" <;> by_cases h1 : a1 = "" <;> by_cases h0 : a0 = "" <;>
      simp [emittedFields, genPolicyRuleLine, dropTrailingEmpty, List.dropWhile, h0, h1, h2]
  · by_cases h3 : a3 = "" <;> by_cases h2 : a2 = "" <;> by_cases h1 : a1 = "" <;>
      by_cases h0 : a0 = "" <;>
      simp [emittedFields, genPolicyRuleLine, dropTrailingEmpty, List.dropWhile, h0, h1, h2,
        h3]
  · by_cases h4 : a4 = "" <;> by_cases h3 : a3 = "" <;> by_cases h2 : a2 = "" <;>
      by_cases h1 : a1 = "" <;> by_cases h0 : a0 = "" <;>
      simp [emittedFields, genPolicyRuleLine, dropTrailingEmpty, List.dropWhile, h0, h1, h2,
        h3, h4]
  · by_cases h5 : a5 = "" <;> by_cases h4 : a4 = "" <;> by_cases h3 : a3 = "" <;>
      by_cases h2 : a2 = "" <;> by_cases h1 : a1 = "" <;> by_cases h0 : a0 = "" <;>
      simp [emittedFields, genPolicyRuleLine, dropTrailingEmpty, List.dropWhile, h0, h1, h2,
        h3, h4, h5]
  · simp at hlen

theorem dropTrailingEmpty_eq_nil (args : List String) (h : ∀ x ∈ args, x = "") :
    dropTrailingEmpty args = [] := by
  unfold dropTrailingEmpty
  rw [List.reverse_eq_nil_iff, List.dropWhile_eq_nil_iff]
  intro x hx
  simpa using h x (List.mem_reverse.mp hx)

theorem dropTrailingEmpty_eq_self (args : List String) :
    dropTrailingEmpty args = args ↔ args = [] ∨ args.getLast? ≠ some "" := by
  unfold dropTrailingEmpty
  rw [List.reverse_eq_iff, List.getLast?_eq_head?_reverse]
  have hnil : args = [] ↔ args.reverse = [] := List.reverse_eq_nil_iff.symm
  rw [hnil]
  generalize args.reverse = l
  cases l with
  | nil => simp
  | cons x xs =>
    by_cases hx : x = ""
    · subst hx
      simp only [List.dropWhile_cons, decide_True, if_true, List.head?_cons, ne_eq,
        not_true_eq_false, or_false, reduceCtorEq, iff_false]
      intro h
      have hlen := congrArg List.length h
      have hle := (List.dropWhile_sublist (l := xs) (fun x => decide (x = ""))).length_le
      simp only [List.length_cons] at hlen
      omega
    · simp [List.dropWhile_cons, hx]

/-! ## Lemmas: the predicate builders -/

theorem selects_append (s t : Session) (r : CasbinRule) :
    Session.selects (s ++ t) r = (Session.selects s r && Session.selects t r) := by
  simp [Session.selects, List.all_append]

theorem filterMap_cons_toList {α β : Type} (f : α → Option β) (x : α) (xs : List α) :
    (x :: xs).filterMap f = (f x).toList ++ xs.filterMap f := by
  cases h : f x <;> simp [List.filterMap_cons, h]

theorem filterFieldStep_eq (col : Column) (n : Nat) (hn : n ≤ 5) (fieldIndex : Int)
    (fieldValues : List String) (session : Session)
    (hlo : -9223372036854775808 ≤ fieldIndex) (hhi : fieldIndex < 9223372036854775808)
    (hlen : (fieldValues.length : Int) + 5 < 9223372036854775808) :
    filterFieldStep col (n : Int) fieldIndex
        (wrapInt64 (fieldIndex + (fieldValues.length : Int))) fieldValues session =
      some (session ++ ((offsetDemand fieldIndex fieldValues n).map (Cond.eq col)).toList) := by
  unfold filterFieldStep offsetDemand
  by_cases hw : fieldIndex ≤ (n : Int) ∧ (n : Int) < fieldIndex + (fieldValues.length : Int)
  · have hidx : wrapInt64 (fieldIndex + (fieldValues.length : Int)) =
        fieldIndex + (fieldValues.length : Int) := by unfold wrapInt64; omega
    have hsub : wrapInt64 ((n : Int) - fieldIndex) = (n : Int) - fieldIndex := by
      unfold wrapInt64; omega
    have hguard : fieldIndex ≤ (n : Int) ∧
        wrapInt64 (fieldIndex + (fieldValues.length : Int)) > (n : Int) := by
      rw [hidx]; exact ⟨hw.1, hw.2⟩
    have hin : 0 ≤ (n : Int) - fieldIndex ∧
        (n : Int) - fieldIndex < (fieldValues.length : Int) := by omega
    have hlt : ((n : Int) - fieldIndex).toNat < fieldValues.length := by omega
    rw [if_pos hguard, if_pos hw, hsub]
    simp only [goIndex, if_pos hin, List.getElem?_eq_getElem hlt]
    by_cases hv : fieldValues[((n : Int) - fieldIndex).toNat] = ""
    · simp [hv]
    · simp [hv, Session.Where]
  · have hguard : ¬ (fieldIndex ≤ (n : Int) ∧
        wrapInt64 (fieldIndex + (fieldValues.length : Int)) > (n : Int)) := by
      unfold wrapInt64; omega
    rw [if_neg hguard, if_neg hw]
    simp

theorem removeFilteredSession_eq (pType : String) (fieldIndex : Int)
    (fieldValues : List String)
    (hlo : -9223372036854775808 ≤ fieldIndex) (hhi : fieldIndex < 9223372036854775808)
    (hlen : (fieldValues.length : Int) + 5 < 9223372036854775808) :
    removeFilteredSession pType fieldIndex fieldValues =
      some (Cond.eq Column.p_type pType :: offsetConds fieldIndex fieldValues) := by
  have h0 := fun s => filterFieldStep_eq Column.v0 0 (by omega) fieldIndex fieldValues s hlo hhi hlen
  have h1 := fun s => filterFieldStep_eq Column.v1 1 (by omega) fieldIndex fieldValues s hlo hhi hlen
  have h2 := fun s => filterFieldStep_eq Column.v2 2 (by omega) fieldIndex fieldValues s hlo hhi hlen
  have h3 := fun s => filterFieldStep_eq Column.v3 3 (by omega) fieldIndex fieldValues s hlo hhi hlen
  have h4 := fun s => filterFieldStep_eq Column.v4 4 (by omega) fieldIndex fieldValues s hlo hhi hlen
  have h5 := fun s => filterFieldStep_eq Column.v5 5 (by omega) fieldIndex fieldValues s hlo hhi hlen
  simp only [Nat.cast_zero, Nat.cast_one, Nat.cast_ofNat] at h0 h1 h2 h3 h4 h5
  have hrange : List.range 6 = [0, 1, 2, 3, 4, 5] := by decide
  simp only [removeFilteredSession, h0, h1, h2, h3, h4, h5, Option.bind_eq_bind,
    Option.some_bind, Session.Where, offsetConds, hrange, pure, bind, filterMap_cons_toList,
    List.filterMap_nil, vColumn]
  simp

theorem selects_offsetConds (fieldIndex : Int) (fieldValues : List String) (r : CasbinRule) :
    Session.selects (offsetConds fieldIndex fieldValues) r = true ↔
      ∀ c, c ≤ 5 → ∀ v, offsetDemand fieldIndex fieldValues c = some v →
        r.col (vColumn c) = v := by
  simp only [Session.selects, List.all_eq_true, offsetConds, List.mem_filterMap, List.mem_range,
    Option.map_eq_some']
  constructor
  · intro h c hc v hv
    have := h (Cond.eq (vColumn c) v) ⟨c, by omega, v, hv, rfl⟩
    simpa [Cond.holds] using this
  · rintro h cond ⟨c, hc, v, hv, rfl⟩
    simpa [Cond.holds] using h c (by omega) v hv

theorem offsetDemand_eq_some (fieldIndex : Int) (fieldValues : List String) (c : Nat)
    (v : String) :
    offsetDemand fieldIndex fieldValues c = some v ↔
      (fieldIndex ≤ (c : Int) ∧ (c : Int) < fieldIndex + (fieldValues.length : Int)) ∧
        fieldValues[((c : Int) - fieldIndex).toNat]? = some v ∧ v ≠ "" := by
  unfold offsetDemand
  by_cases hw : fieldIndex ≤ (c : Int) ∧ (c : Int) < fieldIndex + (fieldValues.length : Int)
  · rw [if_pos hw]
    cases hget : fieldValues[((c : Int) - fieldIndex).toNat]? with
    | none => simp
    | some w =>
      by_cases hwne : w = ""
      · subst hwne
        simp only [ne_eq, not_true_eq_false, if_false, Option.some.injEq]
        constructor
        · intro h
          cases h
        · rintro ⟨_, rfl, h⟩
          exact absurd rfl h
      · simp only [ne_eq, hwne, not_false_eq_true, if_true, Option.some.injEq]
        constructor
        · rintro rfl
          exact ⟨hw, rfl, hwne⟩
        · rintro ⟨_, h, _⟩
          exact h
  · rw [if_neg hw]
    simp [hw]

theorem Delete_of_call_ok {e : EngineGroup} (h : e.call.1 = none) (session : Session) :
    e.Delete session =
      (none, { e.call.2 with rows := e.rows.filter (fun r => !session.selects r) }) := by
  have hr := call_rows e
  unfold EngineGroup.Delete
  rcases hcall : e.call with ⟨o, e1⟩
  rw [hcall] at h hr
  simp only at h hr
  subst h
  simp only [hr]

theorem Delete_of_call_err {e : EngineGroup} {msg : String} (h : e.call.1 = some msg)
    (session : Session) : e.Delete session = (some msg, e.call.2) := by
  unfold EngineGroup.Delete
  rcases hcall : e.call with ⟨o, e1⟩
  rw [hcall] at h
  simp only at h
  subst h
  rfl

theorem filterWhereStep_eq (session : Session) (col : Column) (val : List String) :
    filterWhereStep session col val = session ++ (candidateCond col val).toList := by
  unfold filterWhereStep candidateCond
  rcases val with _ | ⟨x, _ | ⟨y, rest⟩⟩ <;> simp [Session.Where]

theorem filterSession_eq (f : Filter) :
    filterSession f = allColumns.filterMap (fun col => candidateCond col (f.candidates col)) := by
  simp only [filterSession, List.foldl_cons, List.foldl_nil, filterWhereStep_eq, allColumns,
    filterMap_cons_toList, List.filterMap_nil, Filter.candidates]
  simp

theorem candidateCond_holds (r : CasbinRule) (col : Column) (vals : List String) :
    (∀ cond, candidateCond col vals = some cond → Cond.holds r cond = true) ↔
      (vals = [] ∨ r.col col ∈ vals) := by
  unfold candidateCond
  rcases vals with _ | ⟨x, _ | ⟨y, rest⟩⟩ <;> simp [Cond.holds]

theorem mem_allColumns (col : Column) : col ∈ allColumns := by
  cases col <;> simp [allColumns]

theorem selects_filterSession (f : Filter) (r : CasbinRule) :
    Session.selects (filterSession f) r = true ↔
      ∀ col, f.candidates col = [] ∨ r.col col ∈ f.candidates col := by
  rw [filterSession_eq]
  simp only [Session.selects, List.all_eq_true, List.mem_filterMap]
  constructor
  · intro h col
    rw [← candidateCond_holds]
    intro cond hcond
    exact h cond ⟨col, mem_allColumns col, hcond⟩
  · rintro h cond ⟨col, _, hcond⟩
    exact (candidateCond_holds r col (f.candidates col)).mpr (h col) cond hcond

theorem Find_of_call_ok {e : EngineGroup} (h : e.call.1 = none) (session : Session) :
    e.Find session = (none, e.rows.filter session.selects, e.call.2) := by
  have hr := call_rows e
  unfold EngineGroup.Find
  rcases hcall : e.call with ⟨o, e1⟩
  rw [hcall] at h hr
  simp only at h hr
  subst h
  simp only [hr]

theorem selects_exactMatchSession (g r : CasbinRule) :
    Session.selects (exactMatchSession g) r = true ↔
      r.PType = g.PType ∧ r.V0 = g.V0 ∧ r.V1 = g.V1 ∧ r.V2 = g.V2 ∧ r.V3 = g.V3 ∧
        r.V4 = g.V4 ∧ r.V5 = g.V5 := by
  simp [Session.selects, exactMatchSession, Cond.holds, CasbinRule.col, and_assoc]

/-! ## Lemmas: bulk removal -/

theorem bulkRemoveBody_of_succeeds (pType : String) (rules : List (List String))
    (e : EngineGroup) (h : e.succeeds rules.length) :
    bulkRemoveBody pType rules e =
      (none, rules.foldl
        (fun db rule => (db.Delete (exactMatchSession (genPolicyRuleLine pType rule))).2) e) := by
  induction rules generalizing e with
  | nil => rfl
  | cons rule rest ih =>
    have hc := call_of_succeeds h
    have hrest : ({ e.call.2 with rows := e.rows.filter (fun r =>
        !Session.selects (exactMatchSession (genPolicyRuleLine pType rule)) r) } :
        EngineGroup).succeeds rest.length := hc.2.1
    simp only [bulkRemoveBody, List.foldl_cons, Delete_of_call_ok hc.1]
    exact ih _ hrest

theorem bulkRemoveBody_of_failsAt (pType : String) (rules : List (List String))
    (e : EngineGroup) (k : Nat) (msg : String) (hk : k < rules.length)
    (h : e.failsAt k msg) :
    (bulkRemoveBody pType rules e).1 = some msg ∧
      (bulkRemoveBody pType rules e).2.faults = e.faults.drop (k + 1) := by
  induction rules generalizing e k with
  | nil => simp at hk
  | cons rule rest ih =>
    cases k with
    | zero =>
      have hc := failsAt_zero h
      simp only [bulkRemoveBody, Delete_of_call_err hc, call_faults, zero_add, List.drop_one,
        and_self]
    | succ k =>
      have hc := failsAt_succ h
      have hrest : ({ e.call.2 with rows := e.rows.filter (fun r =>
          !Session.selects (exactMatchSession (genPolicyRuleLine pType rule)) r) } :
          EngineGroup).failsAt k msg := hc.2
      have hlen : k < rest.length := by simpa using hk
      have := ih _ k hlen hrest
      simp only [bulkRemoveBody, Delete_of_call_ok hc.1]
      refine ⟨this.1, ?_⟩
      rw [this.2]
      simp only [call_faults, List.drop_tail]

theorem foldl_RemovePolicy (sec pType : String) (rules : List (List String)) (a : Adapter) :
    rules.foldl (fun b rule => (b.RemovePolicy sec pType rule).2) a =
      { a with engine := (List.foldl
        (fun db rule => (db.Delete (exactMatchSession (genPolicyRuleLine pType rule))).2)
        a.engine rules) } := by
  induction rules generalizing a with
  | nil => rfl
  | cons rule rest ih =>
    rw [List.foldl_cons, ih]
    rfl

theorem BulkRemovePolicy_of_failsAt (a : Adapter) (sec pType : String)
    (rules : List (List String)) (k : Nat) (msg : String) (hk : k < rules.length)
    (h : a.engine.failsAt k msg) :
    (a.BulkRemovePolicy sec pType rules).1 = Ret.err msg := by
  obtain ⟨h1, _⟩ := bulkRemoveBody_of_failsAt pType rules a.engine k msg hk h
  obtain ⟨o, e1, hbody⟩ : ∃ o e1, bulkRemoveBody pType rules a.engine = (o, e1) :=
    ⟨_, _, rfl⟩
  rw [hbody] at h1
  simp only at h1
  subst h1
  simp only [Adapter.BulkRemovePolicy, EngineGroup.Tx, hbody, Ret.ofError]

/-! ## Lemmas: saving and adding -/

theorem sectionRuleLines_withoutID (asts : AssertionMap) :
    (sectionRuleLines asts).map CasbinRule.withoutID = sectionRuleLines asts := by
  unfold sectionRuleLines
  induction asts with
  | nil => rfl
  | cons entry asts ih =>
    rw [List.flatMap_cons, List.map_append, ih, List.map_map]
    congr 1
    apply List.map_congr_left
    intro rule _
    exact genPolicyRuleLine_withoutID entry.1 rule

theorem SavePolicy_ruleLines (model : Model) :
    appendRuleLines (model "g") (appendRuleLines (model "p") []) =
      sectionRuleLines (model "p") ++ sectionRuleLines (model "g") := by
  simp only [appendRuleLines_eq, sectionRuleLines, List.nil_append]

theorem SavePolicy_of_first_err (a : Adapter) (model : Model) {msg : String}
    (h : a.engine.call.1 = some msg) :
    a.SavePolicy model = (Ret.panicked msg, { a with engine := a.engine.call.2 }) := by
  simp only [Adapter.SavePolicy, Adapter.cleanTable, ExecDeleteAll_of_call_err h]

theorem SavePolicy_of_second_err (a : Adapter) (model : Model) {msg : String}
    (h1 : a.engine.call.1 = none)
    (h2 : ({ a.engine.call.2 with rows := [] } : EngineGroup).call.1 = some msg) :
    a.SavePolicy model =
      (Ret.err msg,
        { a with engine := ({ a.engine.call.2 with rows := [] } : EngineGroup).call.2 }) := by
  simp only [Adapter.SavePolicy, Adapter.cleanTable, ExecDeleteAll_of_call_ok h1,
    BulkCreate_of_call_err h2, Ret.ofError]

theorem SavePolicy_of_ok (a : Adapter) (model : Model)
    (h1 : a.engine.call.1 = none)
    (h2 : ({ a.engine.call.2 with rows := [] } : EngineGroup).call.1 = none) :
    a.SavePolicy model =
      (Ret.nil,
        { a with engine :=
          (List.foldl EngineGroup.insert ({ a.engine.call.2 with rows := [] } : EngineGroup).call.2
            (sectionRuleLines (model "p") ++ sectionRuleLines (model "g"))) }) := by
  simp only [Adapter.SavePolicy, Adapter.cleanTable, ExecDeleteAll_of_call_ok h1,
    BulkCreate_of_call_ok h2, Ret.ofError, SavePolicy_ruleLines]

theorem SavePolicy_calls_of_nil (a : Adapter) (model : Model)
    (h : (a.SavePolicy model).1 = Ret.nil) :
    a.engine.call.1 = none ∧
      ({ a.engine.call.2 with rows := [] } : EngineGroup).call.1 = none := by
  cases h1 : a.engine.call.1 with
  | some msg =>
    rw [SavePolicy_of_first_err a model h1] at h
    cases h
  | none =>
    refine ⟨rfl, ?_⟩
    cases h2 : ({ a.engine.call.2 with rows := [] } : EngineGroup).call.1 with
    | some msg =>
      rw [SavePolicy_of_second_err a model h1 h2] at h
      cases h
    | none => rfl

theorem keyedFrom_ID_ge (n : Nat) (rs : List CasbinRule) :
    ∀ r ∈ keyedFrom n rs, n ≤ r.ID := by
  induction rs generalizing n with
  | nil => simp [keyedFrom]
  | cons r rs ih =>
    intro x hx
    simp only [keyedFrom, List.mem_cons] at hx
    rcases hx with rfl | hx
    · exact Nat.le_refl _
    · exact Nat.le_of_succ_le (ih (n + 1) x hx)

theorem foldl_Create_of_succeeds (pType : String) (rules : List (List String))
    (e : EngineGroup) (h : e.succeeds rules.length) :
    (rules.foldl (fun db rule => (db.Create (genPolicyRuleLine pType rule)).2) e).rows =
        e.rows ++ keyedFrom e.nextID (rules.map (genPolicyRuleLine pType)) := by
  induction rules generalizing e with
  | nil => simp [keyedFrom]
  | cons rule rest ih =>
    have hc := call_of_succeeds h
    have hrest : (e.call.2.insert (genPolicyRuleLine pType rule)).succeeds rest.length :=
      hc.2.1
    rw [List.foldl_cons, Create_of_call_ok hc.1, ih _ hrest]
    simp only [EngineGroup.insert, call_rows, call_nextID, List.map_cons, keyedFrom,
      List.append_assoc, List.singleton_append]

theorem foldl_AddPolicy (sec pType : String) (rules : List (List String)) (a : Adapter) :
    rules.foldl (fun b rule => (b.AddPolicy sec pType rule).2) a =
      { a with engine := (List.foldl
        (fun db rule => (db.Create (genPolicyRuleLine pType rule)).2) a.engine rules) } := by
  induction rules generalizing a with
  | nil => rfl
  | cons rule rest ih =>
    rw [List.foldl_cons, ih]
    rfl

/-! ## Lemmas: the filtered flag -/

theorem step_isFiltered {M : Type} (LoadPolicyLine : String → M → M) (a : Adapter)
    (op : Op M) :
    (a.step LoadPolicyLine op).2.isFiltered = true ↔
      a.isFiltered = true ∨
        (op.isLoadFiltered = true ∧ (a.step LoadPolicyLine op).1 = Ret.nil) := by
  cases op with
  | loadPolicy model =>
    obtain ⟨o, rules, e, hfind⟩ : ∃ o rules e, a.engine.Find [] = (o, rules, e) :=
      ⟨_, _, _, rfl⟩
    simp only [Adapter.step, Adapter.LoadPolicy, Op.isLoadFiltered, hfind]
    cases o <;> simp
  | savePolicy model =>
    obtain ⟨o, e, hdel⟩ : ∃ o e, a.engine.ExecDeleteAll = (o, e) := ⟨_, _, rfl⟩
    simp only [Adapter.step, Adapter.SavePolicy, Adapter.cleanTable, Op.isLoadFiltered, hdel]
    cases o <;> simp
  | addPolicy sec pType rules => simp [Adapter.step, Adapter.AddPolicy, Op.isLoadFiltered]
  | bulkAddPolicy sec pType rules =>
    simp [Adapter.step, Adapter.BulkAddPolicy, Op.isLoadFiltered]
  | removePolicy sec pType rules =>
    simp [Adapter.step, Adapter.RemovePolicy, Op.isLoadFiltered]
  | bulkRemovePolicy sec pType rules =>
    simp [Adapter.step, Adapter.BulkRemovePolicy, Op.isLoadFiltered]
  | removeFilteredPolicy sec pType fieldIndex fieldValues =>
    obtain ⟨o, hsession⟩ : ∃ o, removeFilteredSession pType fieldIndex fieldValues = o :=
      ⟨_, rfl⟩
    simp only [Adapter.step, Adapter.RemoveFilteredPolicy, Op.isLoadFiltered, hsession]
    cases o <;> simp
  | loadFilteredPolicy model filter =>
    cases filter with
    | other => simp [Adapter.step, Adapter.LoadFilteredPolicy, Op.isLoadFiltered]
    | filter f =>
      obtain ⟨o, rules, e, hfind⟩ :
          ∃ o rules e, a.engine.Find (filterSession f) = (o, rules, e) := ⟨_, _, _, rfl⟩
      simp only [Adapter.step, Adapter.LoadFilteredPolicy, Op.isLoadFiltered, hfind]
      cases o <;> simp
  | isFiltered => simp [Adapter.step, Op.isLoadFiltered]

theorem run_isFiltered {M : Type} (LoadPolicyLine : String → M → M) (ops : List (Op M))
    (a : Adapter) :
    (a.run LoadPolicyLine ops).isFiltered = true ↔
      a.isFiltered = true ∨
        ∃ p ∈ a.trace LoadPolicyLine ops, p.1.isLoadFiltered = true ∧ p.2 = Ret.nil := by
  induction ops generalizing a with
  | nil => simp [Adapter.run, Adapter.trace]
  | cons op ops ih =>
    rw [Adapter.run, ih, step_isFiltered]
    simp only [Adapter.trace, List.mem_cons, exists_eq_or_imp, or_assoc]

/-! ## Claims -/

/-- C1. Round trip: for every policy type and every argument list of length one
to six whose elements are all non-empty, the rule text `loadPolicyRuleLine`
computes for the row `genPolicyRuleLine` produced is the policy type followed by
the arguments in order, joined with `", "`. At adapter level, when the engine
does not fail and every rule of the "p" and "g" sections has one to six
non-empty arguments, `SavePolicy` followed by `LoadPolicy` both return `nil` and
the model is fed exactly the saved rules' texts, in the order they were saved. -/
theorem C1_encode_decode_round_trip {M : Type} (pType : String) (args : List String)
    (hlen : 1 ≤ args.length ∧ args.length ≤ 6) (hne : ∀ x ∈ args, x ≠ "")
    (LoadPolicyLine : String → M → M) (a : Adapter) (saved : Model) (model : M)
    (hengine : a.engine.succeeds 3)
    (hp : sectionWellFormed (saved "p")) (hg : sectionWellFormed (saved "g")) :
    loadPolicyRuleText (genPolicyRuleLine pType args) = ", ".intercalate (pType :: args) ∧
    (a.SavePolicy saved).1 = Ret.nil ∧
    ((a.SavePolicy saved).2.LoadPolicy LoadPolicyLine model).1 = Ret.nil ∧
    ((a.SavePolicy saved).2.LoadPolicy LoadPolicyLine model).2.2 =
      (sectionTexts (saved "p") ++ sectionTexts (saved "g")).foldl
        (fun m text => LoadPolicyLine text m) model := by
  refine ⟨roundtrip_text pType args hlen hne, ?_⟩
  have h1 := call_of_succeeds hengine
  have h1b : ({ a.engine.call.2 with rows := [] } : EngineGroup).succeeds 2 := h1.2.1
  have h2 := call_of_succeeds h1b
  have hsave : a.SavePolicy saved =
      (Ret.nil, { a with engine :=
        (List.foldl EngineGroup.insert ({ a.engine.call.2 with rows := [] } : EngineGroup).call.2
          (appendRuleLines (saved "g") (appendRuleLines (saved "p") []))) }) := by
    simp only [Adapter.SavePolicy, Adapter.cleanTable, ExecDeleteAll_of_succeeds hengine,
      BulkCreate_of_succeeds h1b, Ret.ofError]
  have h3 : ((a.SavePolicy saved).2.engine).succeeds 1 := by
    rw [hsave]
    simp only [EngineGroup.succeeds, foldl_insert_faults]
    exact h2.2.1
  have hload := Find_of_succeeds h3 []
  have hall : ∀ rs : List CasbinRule, rs.filter (Session.selects []) = rs := by
    intro rs
    simp [Session.selects]
  refine ⟨by rw [hsave], ?_, ?_⟩
  · simp only [Adapter.LoadPolicy, hload]
  · simp only [Adapter.LoadPolicy, hload, hall, loadPolicyRuleLine]
    rw [← List.foldl_map loadPolicyRuleText (fun m text => LoadPolicyLine text m)]
    congr 1
    rw [hsave]
    simp only [foldl_insert_texts, appendRuleLines_eq, List.nil_append, List.map_append,
      sectionTexts_of_wellFormed _ hp, sectionTexts_of_wellFormed _ hg]
    rw [call_rows]
    simp

/-- A saved-and-loaded example of C1: the rule ("p", alice, data1, read) and the
example model through `SavePolicy` and `LoadPolicy` on an empty table. -/
theorem C1_round_trip_witness :
    loadPolicyRuleText (genPolicyRuleLine "p" ["alice", "data1", "read"]) =
        "p, alice, data1, read" ∧
      (exampleAdapter.SavePolicy exampleModel).1 = Ret.nil ∧
      ((exampleAdapter.SavePolicy exampleModel).2.LoadPolicy recordLine []).1 = Ret.nil ∧
      ((exampleAdapter.SavePolicy exampleModel).2.LoadPolicy recordLine []).2.2 =
        ["p, alice, data1, read", "p, bob, data2, write", "p, data2_admin, data2, read",
         "p, data2_admin, data2, write", "g, alice, data2_admin"] := by
  have h := C1_encode_decode_round_trip "p" ["alice", "data1", "read"] (by decide) (by decide)
    recordLine exampleAdapter exampleModel [] (by decide) (by decide) (by decide)
  exact ⟨h.1.trans (by decide), h.2.1, h.2.2.1, h.2.2.2.trans (by decide)⟩

/-- C2. Offset-filtered delete: for every `pType`, every Go `int` `fieldIndex` and
every slice `fieldValues`, the clauses `RemoveFilteredPolicy` builds are exactly
`p_type = pType` followed, for each column `c` in `0..5` with
`fieldIndex <= c < fieldIndex + len(fieldValues)` and `fieldValues[c-fieldIndex]`
non-empty, by `v{c} = fieldValues[c-fieldIndex]`; a row is selected iff it
satisfies those equalities; when the engine's delete succeeds the table keeps
exactly the rows that are not selected, in order; and `fieldIndex = 1` with the
non-empty values `X, Y` constrains only `p_type`, `v1 = X` and `v2 = Y`. -/
theorem C2_offset_filtered_delete (a : Adapter) (sec pType : String) (fieldIndex : Int)
    (fieldValues : List String)
    (hlo : -9223372036854775808 ≤ fieldIndex) (hhi : fieldIndex < 9223372036854775808)
    (hlen : (fieldValues.length : Int) + 5 < 9223372036854775808) :
    removeFilteredSession pType fieldIndex fieldValues =
        some (Cond.eq Column.p_type pType :: offsetConds fieldIndex fieldValues) ∧
      (∀ cond, cond ∈ offsetConds fieldIndex fieldValues ↔
        ∃ c : Nat, c ≤ 5 ∧
          (fieldIndex ≤ (c : Int) ∧ (c : Int) < fieldIndex + (fieldValues.length : Int)) ∧
          ∃ v, fieldValues[((c : Int) - fieldIndex).toNat]? = some v ∧ v ≠ "" ∧
            cond = Cond.eq (vColumn c) v) ∧
      (∀ r : CasbinRule,
        Session.selects (Cond.eq Column.p_type pType :: offsetConds fieldIndex fieldValues) r
            = true ↔
          r.PType = pType ∧
            ∀ c : Nat, c ≤ 5 →
              fieldIndex ≤ (c : Int) ∧ (c : Int) < fieldIndex + (fieldValues.length : Int) →
              ∀ v, fieldValues[((c : Int) - fieldIndex).toNat]? = some v → v ≠ "" →
                r.col (vColumn c) = v) ∧
      (a.engine.call.1 = none →
        (a.RemoveFilteredPolicy sec pType fieldIndex fieldValues).1 = Ret.nil ∧
        (a.RemoveFilteredPolicy sec pType fieldIndex fieldValues).2.engine.rows =
          a.engine.rows.filter (fun r =>
            !Session.selects (Cond.eq Column.p_type pType :: offsetConds fieldIndex fieldValues)
              r)) ∧
      (∀ X Y : String, X ≠ "" → Y ≠ "" →
        removeFilteredSession pType 1 [X, Y] =
          some [Cond.eq Column.p_type pType, Cond.eq Column.v1 X, Cond.eq Column.v2 Y]) := by
  have hsession := removeFilteredSession_eq pType fieldIndex fieldValues hlo hhi hlen
  refine ⟨hsession, ?_, ?_, ?_, ?_⟩
  · intro cond
    simp only [offsetConds, List.mem_filterMap, List.mem_range, Option.map_eq_some',
      offsetDemand_eq_some]
    constructor
    · rintro ⟨c, hc, v, ⟨hw, hget, hv⟩, rfl⟩
      exact ⟨c, by omega, hw, v, hget, hv, rfl⟩
    · rintro ⟨c, hc, hw, v, hget, hv, rfl⟩
      exact ⟨c, by omega, v, ⟨hw, hget, hv⟩, rfl⟩
  · intro r
    have happ := selects_append [Cond.eq Column.p_type pType]
      (offsetConds fieldIndex fieldValues) r
    rw [List.singleton_append] at happ
    rw [happ, Bool.and_eq_true, selects_offsetConds]
    simp only [Session.selects, List.all_cons, List.all_nil, Bool.and_true, Cond.holds,
      CasbinRule.col, decide_eq_true_eq, offsetDemand_eq_some]
    constructor
    · rintro ⟨hp, h⟩
      exact ⟨hp, fun c hc hw v hget hv => h c hc v ⟨hw, hget, hv⟩⟩
    · rintro ⟨hp, h⟩
      exact ⟨hp, fun c hc v hv => h c hc hv.1 v hv.2.1 hv.2.2⟩
  · intro hcall
    simp only [Adapter.RemoveFilteredPolicy, hsession, Delete_of_call_ok hcall, Ret.ofError,
      true_and]
  · intro X Y hX hY
    rw [removeFilteredSession_eq pType 1 [X, Y] (by decide) (by decide) (by simp)]
    have hrange : List.range 6 = [0, 1, 2, 3, 4, 5] := by decide
    simp [offsetConds, hrange, filterMap_cons_toList, offsetDemand, vColumn, hX, hY]

/-- The call of the repository's test, `RemoveFilteredPolicy(0, "data2_admin")`,
as an instance of C2 on a table holding one such row. -/
theorem C2_offset_filtered_delete_witness :
    removeFilteredSession "p" 0 ["data2_admin"] =
        some [Cond.eq Column.p_type "p", Cond.eq Column.v0 "data2_admin"] ∧
      ((exampleAdapter.SavePolicy exampleModel).2.RemoveFilteredPolicy "p" "p" 0
          ["data2_admin"]).2.engine.rows.map loadPolicyRuleText =
        ["p, alice, data1, read", "p, bob, data2, write", "g, alice, data2_admin"] := by
  have h := C2_offset_filtered_delete (exampleAdapter.SavePolicy exampleModel).2 "p" "p" 0
    ["data2_admin"] (by decide) (by decide) (by decide)
  refine ⟨h.1.trans (by decide), ?_⟩
  rw [(h.2.2.2.1 (by decide)).2]
  decide

/-- C3. Structured filter: for every `Filter`, the clauses `LoadFilteredPolicy`
builds are, column by column, nothing for an empty candidate list, an equality
for a single candidate and an `IN` for several; they select a row iff for each
of the seven columns the candidate list is empty or contains the row's value;
when the engine's query succeeds the model is fed exactly the selected rows, in
order. `Filter{V0: [alice, bob]}` selects exactly the rows whose `v0` is alice
or bob, and the all-empty `Filter` builds no clause and selects every row. -/
theorem C3_structured_filter {M : Type} (LoadPolicyLine : String → M → M) (a : Adapter)
    (model : M) (f : Filter) (r : CasbinRule) :
    filterSession f = allColumns.filterMap (fun col => candidateCond col (f.candidates col)) ∧
      (Session.selects (filterSession f) r = true ↔
        ∀ col, f.candidates col = [] ∨ r.col col ∈ f.candidates col) ∧
      (a.engine.call.1 = none →
        (a.LoadFilteredPolicy LoadPolicyLine model (FilterArg.filter f)).2.2 =
          (a.engine.rows.filter (Session.selects (filterSession f))).foldl
            (fun m rule => LoadPolicyLine (loadPolicyRuleText rule) m) model) ∧
      (Session.selects (filterSession { V0 := ["alice", "bob"] }) r = true ↔
        r.V0 = "alice" ∨ r.V0 = "bob") ∧
      filterSession {} = [] ∧
      Session.selects (filterSession {}) r = true := by
  refine ⟨filterSession_eq f, selects_filterSession f r, ?_, ?_, rfl, rfl⟩
  · intro hcall
    simp only [Adapter.LoadFilteredPolicy, Find_of_call_ok hcall, loadPolicyRuleLine]
  · simp [filterSession, filterWhereStep, Session.Where, Session.selects, Cond.holds,
      CasbinRule.col]

/-- The filtered load of the repository's test, `Filter{V0: [alice, bob]}`, on the
saved example model: the model is fed the alice rule and the bob rule. -/
theorem C3_structured_filter_witness :
    (((exampleAdapter.SavePolicy exampleModel).2.LoadFilteredPolicy recordLine []
        (FilterArg.filter { V0 := ["alice", "bob"] })).2.2) =
      ["p, alice, data1, read", "p, bob, data2, write", "g, alice, data2_admin"] := by
  have h := C3_structured_filter recordLine (exampleAdapter.SavePolicy exampleModel).2 []
    { V0 := ["alice", "bob"] } {}
  rw [h.2.2.1 (by decide)]
  decide

/-- C4. Exact-match remove: for every `pType` and rule, the clauses of
`RemovePolicy` select a row iff its seven columns equal `pType` and the rule's
first six arguments, the empty string standing for an absent argument; when the
engine's delete succeeds `RemovePolicy` returns `nil` and the table keeps
exactly the rows that differ in at least one column, unchanged and in order, so
every duplicate of the matched row is removed; when the delete fails the error
is returned and the table is unchanged. -/
theorem C4_exact_match_remove (a : Adapter) (sec pType : String) (rule : List String) :
    (∀ r : CasbinRule,
      Session.selects (exactMatchSession (genPolicyRuleLine pType rule)) r = true ↔
        r.PType = pType ∧ r.V0 = rule.getD 0 "" ∧ r.V1 = rule.getD 1 "" ∧
          r.V2 = rule.getD 2 "" ∧ r.V3 = rule.getD 3 "" ∧ r.V4 = rule.getD 4 "" ∧
          r.V5 = rule.getD 5 "") ∧
      (a.engine.call.1 = none →
        (a.RemovePolicy sec pType rule).1 = Ret.nil ∧
        (a.RemovePolicy sec pType rule).2.engine.rows =
          a.engine.rows.filter (fun r =>
            !Session.selects (exactMatchSession (genPolicyRuleLine pType rule)) r)) ∧
      (∀ msg, a.engine.call.1 = some msg →
        (a.RemovePolicy sec pType rule).1 = Ret.err msg ∧
        (a.RemovePolicy sec pType rule).2.engine.rows = a.engine.rows) := by
  refine ⟨?_, ?_, ?_⟩
  · intro r
    rw [selects_exactMatchSession]
    rcases rule with _ | ⟨a0, _ | ⟨a1, _ | ⟨a2, _ | ⟨a3, _ | ⟨a4, _ | ⟨a5, rest⟩⟩⟩⟩⟩⟩ <;>
      simp [genPolicyRuleLine]
  · intro hcall
    simp only [Adapter.RemovePolicy, Delete_of_call_ok hcall, Ret.ofError, true_and]
  · intro msg hcall
    simp only [Adapter.RemovePolicy, Delete_of_call_err hcall, Ret.ofError, true_and]
    exact call_rows a.engine

/-- An instance of C4: removing ("p", alice, data1, read) from a table that holds
the row twice leaves only the bob row. -/
theorem C4_exact_match_remove_witness :
    (busyAdapter.RemovePolicy "p" "p" ["alice", "data1", "read"]).1 = Ret.nil ∧
      (busyAdapter.RemovePolicy "p" "p" ["alice", "data1", "read"]).2.engine.rows =
        [{ ID := 2, PType := "p", V0 := "bob", V1 := "data2", V2 := "write" }] := by
  have h := (C4_exact_match_remove busyAdapter "p" "p" ["alice", "data1", "read"]).2.1
    (by decide)
  exact ⟨h.1, h.2.trans (by decide)⟩

/-- C5, as the specification states it, fails on `gappedRow`: `v0` and `v2` are
set and `v1`, `v3`, `v4`, `v5` are empty, and the rule text is
`"p, alice, , read"`, not `pType + ", " + v0`. -/
theorem C5_gapped_row_counterexample :
    (gappedRow.V0 ≠ "" ∧ gappedRow.V2 ≠ "" ∧ gappedRow.V1 = "" ∧ gappedRow.V3 = "" ∧
        gappedRow.V4 = "" ∧ gappedRow.V5 = "") ∧
      loadPolicyRuleText gappedRow = "p, alice, , read" ∧
      loadPolicyRuleText gappedRow ≠ gappedRow.PType ++ ", " ++ gappedRow.V0 := by
  decide

/-- C5, amended. For every row in which `v0` and `v2` are non-empty and `v1`,
`v3`, `v4`, `v5` are empty, `loadPolicyRuleLine` decodes the row as arity 3: the
rule text is the join of `pType`, `v0`, the empty `v1` and `v2`, that is
`pType + ", " + v0 + ", " + ", " + v2`; `v2` is kept. -/
theorem C5_gapped_row_decodes_arity_three (rule : CasbinRule)
    (_h0 : rule.V0 ≠ "") (h2 : rule.V2 ≠ "") (h1 : rule.V1 = "") (h3 : rule.V3 = "")
    (h4 : rule.V4 = "") (h5 : rule.V5 = "") :
    loadPolicyRuleText rule = ", ".intercalate [rule.PType, rule.V0, "", rule.V2] ∧
      loadPolicyRuleText rule = rule.PType ++ ", " ++ rule.V0 ++ ", " ++ ", " ++ rule.V2 := by
  have htext : loadPolicyRuleText rule = ", ".intercalate [rule.PType, rule.V0, "", rule.V2] := by
    simp [loadPolicyRuleText, h1, h2, h3, h4, h5]
  refine ⟨htext, ?_⟩
  rw [htext]
  simp [String.intercalate, String.intercalate.go, String.append_assoc]

/-- The amended C5 at `gappedRow`. -/
theorem C5_gapped_row_witness :
    loadPolicyRuleText gappedRow = ", ".intercalate ["p", "alice", "", "read"] ∧
      loadPolicyRuleText gappedRow = "p" ++ ", " ++ "alice" ++ ", " ++ ", " ++ "read" :=
  C5_gapped_row_decodes_arity_three gappedRow (by decide) (by decide) rfl rfl rfl rfl

/-- C6. Decode definition: for every row, when `k` is the highest index in `0..5`
with `v{k}` non-empty, the rule text of `loadPolicyRuleLine` is the `", "`-join
of `pType, v0, ..., v{k}` in that order, empty fields below `k` included; when
no field is non-empty the rule text is the empty string, whatever `pType` is. -/
theorem C6_decode_definition (rule : CasbinRule) :
    (∀ k, k ≤ 5 → rule.col (vColumn k) ≠ "" →
      (∀ j, k < j → j ≤ 5 → rule.col (vColumn j) = "") →
      loadPolicyRuleText rule =
        ", ".intercalate
          (rule.PType :: (List.range (k + 1)).map (fun i => rule.col (vColumn i)))) ∧
      ((∀ j, j ≤ 5 → rule.col (vColumn j) = "") → loadPolicyRuleText rule = "") := by
  constructor
  · intro k hk hne hz
    have h1 : k < 1 → rule.col (vColumn 1) = "" := fun h => hz 1 h (by omega)
    have h2 : k < 2 → rule.col (vColumn 2) = "" := fun h => hz 2 h (by omega)
    have h3 : k < 3 → rule.col (vColumn 3) = "" := fun h => hz 3 h (by omega)
    have h4 : k < 4 → rule.col (vColumn 4) = "" := fun h => hz 4 h (by omega)
    have h5 : k < 5 → rule.col (vColumn 5) = "" := fun h => hz 5 h (by omega)
    clear hz
    interval_cases k <;>
      simp only [vColumn, CasbinRule.col, Nat.lt_irrefl, Nat.reduceLT, forall_true_left,
        false_implies, ne_eq] at h1 h2 h3 h4 h5 hne <;>
      simp [loadPolicyRuleText, vColumn, CasbinRule.col, List.range_succ, *]
  · intro hz
    have h0 := hz 0 (by omega)
    have h1 := hz 1 (by omega)
    have h2 := hz 2 (by omega)
    have h3 := hz 3 (by omega)
    have h4 := hz 4 (by omega)
    have h5 := hz 5 (by omega)
    simp only [vColumn, CasbinRule.col] at h0 h1 h2 h3 h4 h5
    simp [loadPolicyRuleText, h0, h1, h2, h3, h4, h5]

/-- Two instances of C6: a row whose highest non-empty field is `v2`, with `v1`
empty, and a row with no non-empty field. -/
theorem C6_decode_definition_witness :
    loadPolicyRuleText gappedRow =
        ", ".intercalate ("p" :: (List.range 3).map (fun i => gappedRow.col (vColumn i))) ∧
      loadPolicyRuleText { ID := 7, PType := "p" } = "" :=
  ⟨(C6_decode_definition gappedRow).1 2 (by decide) (by decide)
      (fun j hj hj5 => by interval_cases j <;> rfl),
    (C6_decode_definition { ID := 7, PType := "p" }).2
      (fun j hj5 => by interval_cases j <;> rfl)⟩

/-- C7. Arity boundary: for every `pType`, the row `genPolicyRuleLine` produces
for the empty argument list has `v0..v5` all empty and the key unset, its rule
text is the empty string, and so is the rule text of every row whose `v0..v5`
are all empty. -/
theorem C7_arity_zero_decodes_to_nothing (pType : String) (id : Nat) (other : String) :
    genPolicyRuleLine pType [] =
        { ID := 0, PType := pType, V0 := "", V1 := "", V2 := "", V3 := "", V4 := "", V5 := "" } ∧
      loadPolicyRuleText (genPolicyRuleLine pType []) = "" ∧
      loadPolicyRuleText
          { ID := id, PType := other, V0 := "", V1 := "", V2 := "", V3 := "", V4 := "", V5 := "" }
        = "" ∧
      loadPolicyRuleText (genPolicyRuleLine pType []) =
        loadPolicyRuleText
          { ID := id, PType := other, V0 := "", V1 := "", V2 := "", V3 := "", V4 := "", V5 := "" } := by
  refine ⟨rfl, ?_, ?_, ?_⟩ <;> simp [loadPolicyRuleText, genPolicyRuleLine]

/-- C8. Encode placement and capacity: for every `pType` and every argument list
of any length, `genPolicyRuleLine` returns a row with `PType = pType`, `ID = 0`
and, for each `i` in `0..5`, `v{i} = args[i]` when `i < len(args)` and the empty
string otherwise; the arguments from index 6 on are dropped, the row being the
encoding of the first six arguments. -/
theorem C8_encode_placement (pType : String) (args : List String) :
    (genPolicyRuleLine pType args).PType = pType ∧
      (genPolicyRuleLine pType args).ID = 0 ∧
      (∀ i, i ≤ 5 → (genPolicyRuleLine pType args).col (vColumn i) = args.getD i "") ∧
      (∀ i (h : i < args.length), i ≤ 5 →
        (genPolicyRuleLine pType args).col (vColumn i) = args[i]) ∧
      (∀ i, args.length ≤ i → i ≤ 5 → (genPolicyRuleLine pType args).col (vColumn i) = "") ∧
      genPolicyRuleLine pType args = genPolicyRuleLine pType (args.take 6) := by
  refine ⟨?_, ?_, genPolicyRuleLine_col pType args, ?_, ?_, genPolicyRuleLine_take pType args⟩
  · rcases args with _ | ⟨a0, _ | ⟨a1, _ | ⟨a2, _ | ⟨a3, _ | ⟨a4, _ | ⟨a5, rest⟩⟩⟩⟩⟩⟩ <;>
      simp [genPolicyRuleLine]
  · rcases args with _ | ⟨a0, _ | ⟨a1, _ | ⟨a2, _ | ⟨a3, _ | ⟨a4, _ | ⟨a5, rest⟩⟩⟩⟩⟩⟩ <;>
      simp [genPolicyRuleLine]
  · intro i h hi
    rw [genPolicyRuleLine_col pType args i hi, List.getD_eq_getElem _ _ h]
  · intro i h hi
    rw [genPolicyRuleLine_col pType args i hi, List.getD_eq_default _ _ h]

/-- An instance of C8 with eight arguments: the seventh and eighth are dropped. -/
theorem C8_encode_placement_witness :
    genPolicyRuleLine "p" ["a", "b", "c", "d", "e", "f", "g", "h"] =
      { ID := 0, PType := "p", V0 := "a", V1 := "b", V2 := "c", V3 := "d", V4 := "e",
        V5 := "f" } :=
  (C8_encode_placement "p" ["a", "b", "c", "d", "e", "f", "g", "h"]).2.2.2.2.2.trans
    (by decide)

/-- C9, as the specification states it, fails for the arguments `["", "bob"]`:
the row has `v1` non-empty and `v0` empty, so it is not left-packed. -/
theorem C9_left_packed_counterexample :
    (genPolicyRuleLine "p" ["", "bob"]).V1 ≠ "" ∧
      (genPolicyRuleLine "p" ["", "bob"]).V0 = "" ∧
      ¬ leftPacked (genPolicyRuleLine "p" ["", "bob"]) := by
  refine ⟨by decide, by decide, ?_⟩
  intro h
  exact h 0 1 (by omega) (by omega) (by decide) (by decide)

/-- C9, amended. For every `pType` and every argument list whose elements are all
non-empty, the row `genPolicyRuleLine` produces is left-packed; for an arbitrary
argument list the row is left-packed exactly when, among the first six
arguments, no empty one comes before a non-empty one. -/
theorem C9_left_packed_for_non_empty_args (pType : String) (args : List String) :
    ((∀ x ∈ args, x ≠ "") → leftPacked (genPolicyRuleLine pType args)) ∧
      (leftPacked (genPolicyRuleLine pType args) ↔
        ∀ m n, m < n → n ≤ 5 → args.getD n "" ≠ "" → args.getD m "" ≠ "") := by
  have hiff : leftPacked (genPolicyRuleLine pType args) ↔
      ∀ m n, m < n → n ≤ 5 → args.getD n "" ≠ "" → args.getD m "" ≠ "" := by
    constructor
    · intro h m n hmn hn hne
      have := h m n hmn hn (by rw [genPolicyRuleLine_col pType args n hn]; exact hne)
      rwa [genPolicyRuleLine_col pType args m (by omega)] at this
    · intro h m n hmn hn hne
      rw [genPolicyRuleLine_col pType args n hn] at hne
      rw [genPolicyRuleLine_col pType args m (by omega)]
      exact h m n hmn hn hne
  refine ⟨fun hall => hiff.mpr ?_, hiff⟩
  intro m n hmn _ hne
  exact getD_ne_of_all_ne args hall m n hmn hne

/-- The amended C9 at the rule ("p", alice, data1, read). -/
theorem C9_left_packed_witness :
    leftPacked (genPolicyRuleLine "p" ["alice", "data1", "read"]) :=
  (C9_left_packed_for_non_empty_args "p" ["alice", "data1", "read"]).1 (by decide)

/-- C10. The filtered flag is monotone: every constructor returns an adapter on
which `IsFiltered()` is false; after any sequence of adapter calls on an adapter
whose flag was false, `IsFiltered()` is true iff some `LoadFilteredPolicy` call
of the sequence returned `nil`; and no call, whatever its result, turns a flag
that is true back to false. -/
theorem C10_filtered_flag_monotone {M : Type} (LoadPolicyLine : String → M → M)
    (a : Adapter) (ops : List (Op M)) (op : Op M) (opened : Except String EngineGroup)
    (engine : EngineGroup) (opts : AdapterOptions) :
    (∀ b, NewAdapter opened = Except.ok b → b.IsFiltered = false) ∧
      (∀ b, NewAdapterWithDBEngine engine = Except.ok b → b.IsFiltered = false) ∧
      (∀ b, NewAdapterWithOptions opts opened = Except.ok b → b.IsFiltered = false) ∧
      (a.IsFiltered = false →
        ((a.run LoadPolicyLine ops).IsFiltered = true ↔
          ∃ p ∈ a.trace LoadPolicyLine ops, p.1.isLoadFiltered = true ∧ p.2 = Ret.nil)) ∧
      (a.IsFiltered = true → (a.step LoadPolicyLine op).2.IsFiltered = true) ∧
      (a.IsFiltered = true → (a.run LoadPolicyLine ops).IsFiltered = true) := by
  refine ⟨?_, ?_, ?_, ?_, ?_, ?_⟩
  · intro b hb
    unfold NewAdapter at hb
    split at hb
    · cases hb
    · cases hb
      rfl
  · intro b hb
    simp only [NewAdapterWithDBEngine, Adapter.ensureTable] at hb
    split at hb
    · cases hb
    · rename_i heq
      cases hb
      split at heq <;> simp only [Prod.mk.injEq] at heq
      · exact absurd heq.1 (by simp)
      · rw [← heq.2]
        rfl
  · intro b hb
    simp only [NewAdapterWithOptions, Adapter.ensureTable] at hb
    split at hb
    · cases hb
    · split at hb
      · cases hb
      · rename_i heq
        cases hb
        split at heq <;> simp only [Prod.mk.injEq] at heq
        · exact absurd heq.1 (by simp)
        · rw [← heq.2]
          rfl
  · intro hfresh
    simp only [Adapter.IsFiltered] at hfresh ⊢
    rw [run_isFiltered, hfresh]
    simp
  · intro htrue
    simp only [Adapter.IsFiltered] at htrue ⊢
    rw [step_isFiltered]
    exact Or.inl htrue
  · intro htrue
    simp only [Adapter.IsFiltered] at htrue ⊢
    rw [run_isFiltered]
    exact Or.inl htrue

/-- Two runs of the example calls as instances of C10: each constructor returns
the example adapter, whose flag is false; on a working engine the first filtered
load succeeds and the flag is true after the whole sequence, the
later unfiltered load and the rejected filtered load notwithstanding; on an
engine whose first call fails no filtered load succeeds and the flag is false. -/
theorem C10_filtered_flag_witness :
    NewAdapter (Except.ok {}) = Except.ok exampleAdapter ∧
      NewAdapterWithDBEngine {} = Except.ok exampleAdapter ∧
      NewAdapterWithOptions {} (Except.ok {}) = Except.ok exampleAdapter ∧
      exampleAdapter.IsFiltered = false ∧
      (exampleAdapter.run recordLine exampleCalls).IsFiltered = true ∧
      (failingAdapter.run recordLine exampleCalls).IsFiltered = false ∧
      (failingAdapter.trace recordLine exampleCalls).map Prod.snd =
        [Ret.err "connection refused", Ret.nil, Ret.err "invalid filter type", Ret.nil] := by
  have h := C10_filtered_flag_monotone recordLine exampleAdapter exampleCalls Op.isFiltered
    (Except.ok {}) {} {}
  have hmem : ((Op.loadFilteredPolicy [] (FilterArg.filter { V0 := ["alice"] }) :
      Op (List String)), Ret.nil) ∈ exampleAdapter.trace recordLine exampleCalls := by
    simp only [exampleCalls, Adapter.trace]
    exact List.mem_cons_self _ _
  exact ⟨rfl, rfl, rfl, h.1 exampleAdapter rfl,
    (h.2.2.2.1 rfl).mpr ⟨_, hmem, rfl, rfl⟩, by decide, by decide⟩

/-- C11, as the specification states it, fails on `mixedAdapter`: the model
rejects the text of the first fetched row, yet `LoadPolicy` returns `nil` and
the second row is still fed to the model. -/
theorem C11_rejected_line_counterexample :
    (mixedAdapter.engine.rows.map loadPolicyRuleText = ["q, mallory", "p, bob, data2, write"]) ∧
      (auditLine "q, mallory" {}).rejected = ["q, mallory"] ∧
      (mixedAdapter.LoadPolicy auditLine {}).1 = Ret.nil ∧
      (mixedAdapter.LoadPolicy auditLine {}).2.2 =
        { accepted := ["p, bob, data2, write"], rejected := ["q, mallory"] } := by
  decide

/-- C11, amended. `loadPolicyRuleLine` returns nothing and `LoadPolicy` looks at no
outcome of `persist.LoadPolicyLine`: for every table content and policy model,
when the fetch succeeds `LoadPolicy` returns `nil` and the rule text of every
fetched row has been fed to the model, in storage order, whatever the model did
with the earlier texts; `LoadPolicy` returns an error only when the fetch fails,
and then no row is fed. -/
theorem C11_load_feeds_every_row {M : Type} (LoadPolicyLine : String → M → M) (a : Adapter)
    (model : M) :
    (a.engine.call.1 = none →
      (a.LoadPolicy LoadPolicyLine model).1 = Ret.nil ∧
      (a.LoadPolicy LoadPolicyLine model).2.2 =
        (a.engine.rows.map loadPolicyRuleText).foldl (fun m text => LoadPolicyLine text m)
          model) ∧
      (∀ msg, a.engine.call.1 = some msg →
        (a.LoadPolicy LoadPolicyLine model).1 = Ret.err msg ∧
        (a.LoadPolicy LoadPolicyLine model).2.2 = model) ∧
      ((a.LoadPolicy LoadPolicyLine model).1 ≠ Ret.nil → a.engine.call.1 ≠ none) := by
  have hall : ∀ rs : List CasbinRule, rs.filter (Session.selects []) = rs := by
    intro rs
    simp [Session.selects]
  have hok : a.engine.call.1 = none →
      (a.LoadPolicy LoadPolicyLine model).1 = Ret.nil ∧
      (a.LoadPolicy LoadPolicyLine model).2.2 =
        (a.engine.rows.map loadPolicyRuleText).foldl (fun m text => LoadPolicyLine text m)
          model := by
    intro hcall
    simp only [Adapter.LoadPolicy, Find_of_call_ok hcall, hall, loadPolicyRuleLine,
      List.foldl_map, and_self]
  refine ⟨hok, ?_, ?_⟩
  · intro msg hcall
    simp only [Adapter.LoadPolicy, Find_of_call_err hcall, and_self]
  · intro hne hcall
    exact hne (hok hcall).1

/-- The amended C11 on `mixedAdapter` with the audited model. -/
theorem C11_load_feeds_every_row_witness :
    (mixedAdapter.LoadPolicy auditLine {}).1 = Ret.nil ∧
      (mixedAdapter.LoadPolicy auditLine {}).2.2 =
        ["q, mallory", "p, bob, data2, write"].foldl (fun m text => auditLine text m) {} :=
  (C11_load_feeds_every_row auditLine mixedAdapter {}).1 rfl

/-- C12. Invalid filter type: for every filter argument that is not a `Filter`,
`LoadFilteredPolicy` returns the error "invalid filter type"; the engine is left
as it was, so no query was issued, the model is unchanged, so no row was fed,
and the filtered flag is unchanged. -/
theorem C12_invalid_filter_type {M : Type} (LoadPolicyLine : String → M → M) (a : Adapter)
    (model : M) (filter : FilterArg) (hfilter : ∀ f, filter ≠ FilterArg.filter f) :
    (a.LoadFilteredPolicy LoadPolicyLine model filter).1 = Ret.err "invalid filter type" ∧
      (a.LoadFilteredPolicy LoadPolicyLine model filter).2.1.engine = a.engine ∧
      (a.LoadFilteredPolicy LoadPolicyLine model filter).2.2 = model ∧
      (a.LoadFilteredPolicy LoadPolicyLine model filter).2.1.IsFiltered = a.IsFiltered ∧
      (a.LoadFilteredPolicy LoadPolicyLine model filter).2.1 = a := by
  cases filter with
  | filter f => exact absurd rfl (hfilter f)
  | other => exact ⟨rfl, rfl, rfl, rfl, rfl⟩

/-- C12 on an adapter whose engine would fail the next query: the answer is the
type error, not the engine's, and the engine's script is untouched. -/
theorem C12_invalid_filter_type_witness :
    (failingAdapter.LoadFilteredPolicy recordLine [] FilterArg.other).1 =
        Ret.err "invalid filter type" ∧
      (failingAdapter.LoadFilteredPolicy recordLine [] FilterArg.other).2.1.engine =
        failingAdapter.engine ∧
      (failingAdapter.LoadFilteredPolicy recordLine [] FilterArg.other).2.2 = [] ∧
      (failingAdapter.LoadFilteredPolicy recordLine [] FilterArg.other).2.1.IsFiltered =
        failingAdapter.IsFiltered ∧
      (failingAdapter.LoadFilteredPolicy recordLine [] FilterArg.other).2.1 = failingAdapter :=
  C12_invalid_filter_type recordLine failingAdapter [] FilterArg.other
    (fun f h => by cases h)

/-- C13. Bulk removal is all-or-nothing: for every table and list of rules, when
every delete succeeds `BulkRemovePolicy` returns `nil` and leaves the adapter,
its table included, as applying `RemovePolicy` to each rule in order leaves it;
when the delete for the rule at index `k` is the first to fail,
`BulkRemovePolicy` returns that error, has made `k + 1` engine calls and no
further one, and the table is the table before the call. -/
theorem C13_bulk_remove_all_or_nothing (a : Adapter) (sec pType : String)
    (rules : List (List String)) :
    (a.engine.succeeds rules.length →
      (a.BulkRemovePolicy sec pType rules).1 = Ret.nil ∧
      (a.BulkRemovePolicy sec pType rules).2 =
        rules.foldl (fun b rule => (b.RemovePolicy sec pType rule).2) a) ∧
      (∀ k msg, k < rules.length → a.engine.failsAt k msg →
        (a.BulkRemovePolicy sec pType rules).1 = Ret.err msg ∧
        (a.BulkRemovePolicy sec pType rules).2.engine.rows = a.engine.rows ∧
        (a.BulkRemovePolicy sec pType rules).2.engine.faults = a.engine.faults.drop (k + 1)) := by
  constructor
  · intro h
    rw [foldl_RemovePolicy]
    simp only [Adapter.BulkRemovePolicy, EngineGroup.Tx,
      bulkRemoveBody_of_succeeds pType rules a.engine h, Ret.ofError, and_self]
  · intro k msg hk h
    obtain ⟨h1, h2⟩ := bulkRemoveBody_of_failsAt pType rules a.engine k msg hk h
    obtain ⟨o, e1, hbody⟩ : ∃ o e1, bulkRemoveBody pType rules a.engine = (o, e1) :=
      ⟨_, _, rfl⟩
    rw [hbody] at h1 h2
    simp only at h1 h2
    subst h1
    simp only [Adapter.BulkRemovePolicy, EngineGroup.Tx, hbody, Ret.ofError, h2, and_self]

/-- Two instances of C13 on a table holding alice twice and bob once: with a
working engine both rules are removed, as by two calls of `RemovePolicy`; with
an engine that fails the second delete the error is returned and the table is as
before. -/
theorem C13_bulk_remove_witness :
    ((busyAdapter.BulkRemovePolicy "p" "p"
        [["alice", "data1", "read"], ["bob", "data2", "write"]]).1 = Ret.nil ∧
      (busyAdapter.BulkRemovePolicy "p" "p"
        [["alice", "data1", "read"], ["bob", "data2", "write"]]).2.engine.rows = []) ∧
      ((flakyAdapter.BulkRemovePolicy "p" "p"
        [["alice", "data1", "read"], ["bob", "data2", "write"]]).1 = Ret.err "deadlock" ∧
      (flakyAdapter.BulkRemovePolicy "p" "p"
        [["alice", "data1", "read"], ["bob", "data2", "write"]]).2.engine.rows =
          flakyAdapter.engine.rows ∧
      (flakyAdapter.BulkRemovePolicy "p" "p"
        [["alice", "data1", "read"], ["bob", "data2", "write"]]).2.engine.faults = []) := by
  have hok := (C13_bulk_remove_all_or_nothing busyAdapter "p" "p"
    [["alice", "data1", "read"], ["bob", "data2", "write"]]).1 (by decide)
  have hfail := (C13_bulk_remove_all_or_nothing flakyAdapter "p" "p"
    [["alice", "data1", "read"], ["bob", "data2", "write"]]).2 1 "deadlock" (by decide)
    (by decide)
  refine ⟨⟨hok.1, ?_⟩, hfail⟩
  rw [hok.2]
  decide

/-- C14. `SavePolicy` replaces the table: for every prior table content and every
model, after a `SavePolicy` that returned `nil` the table holds exactly the rows
`genPolicyRuleLine(pType, rule)` for every rule of every policy type of the "p"
section and then of the "g" section, each under a key the table assigned; every
row is newly keyed, and the table is the one the same call leaves on an empty
table, so no row from before the call is left. -/
theorem C14_save_replaces_table (a : Adapter) (model : Model)
    (hok : (a.SavePolicy model).1 = Ret.nil) :
    (a.SavePolicy model).2.engine.rows =
        keyedFrom a.engine.nextID
          (sectionRuleLines (model "p") ++ sectionRuleLines (model "g")) ∧
      (a.SavePolicy model).2.engine.rows.map CasbinRule.withoutID =
        sectionRuleLines (model "p") ++ sectionRuleLines (model "g") ∧
      ((a.SavePolicy model).2.engine.rows.map CasbinRule.withoutID).Perm
        (sectionRuleLines (model "g") ++ sectionRuleLines (model "p")) ∧
      (∀ r ∈ (a.SavePolicy model).2.engine.rows, a.engine.nextID ≤ r.ID) ∧
      (a.SavePolicy model).2.engine.rows =
        (({ a with engine := { a.engine with rows := [] } } : Adapter).SavePolicy
          model).2.engine.rows := by
  obtain ⟨h1, h2⟩ := SavePolicy_calls_of_nil a model hok
  have hrows : (a.SavePolicy model).2.engine.rows =
      keyedFrom a.engine.nextID
        (sectionRuleLines (model "p") ++ sectionRuleLines (model "g")) := by
    rw [SavePolicy_of_ok a model h1 h2, foldl_insert_eq]
    simp only [call_rows, call_nextID, List.nil_append]
  have hcols : (a.SavePolicy model).2.engine.rows.map CasbinRule.withoutID =
      sectionRuleLines (model "p") ++ sectionRuleLines (model "g") := by
    rw [hrows, keyedFrom_withoutID, List.map_append, sectionRuleLines_withoutID,
      sectionRuleLines_withoutID]
  refine ⟨hrows, hcols, ?_, ?_, ?_⟩
  · rw [hcols]
    exact List.perm_append_comm
  · rw [hrows]
    exact keyedFrom_ID_ge _ _
  · have hcall : ({ a.engine with rows := [] } : EngineGroup).call =
        (a.engine.call.1, { a.engine.call.2 with rows := [] }) := by
      obtain ⟨tableName, isFiltered, ⟨rows, nextID, faults⟩⟩ := a
      cases faults <;> rfl
    have h1b : ({ a.engine with rows := [] } : EngineGroup).call.1 = none := by
      rw [hcall]; exact h1
    have h2b : ({ ({ a.engine with rows := [] } : EngineGroup).call.2 with rows := [] } :
        EngineGroup).call.1 = none := by
      rw [hcall]; exact h2
    rw [hrows, SavePolicy_of_ok _ model h1b h2b, foldl_insert_eq]
    simp only [call_rows, call_nextID, List.nil_append]

/-- C14 on `busyAdapter`, whose table held three rows keyed 1 to 3: after saving
the example model it holds the five saved rules, keyed 4 to 8. -/
theorem C14_save_replaces_table_witness :
    (busyAdapter.SavePolicy exampleModel).2.engine.rows.map loadPolicyRuleText =
        ["p, alice, data1, read", "p, bob, data2, write", "p, data2_admin, data2, read",
         "p, data2_admin, data2, write", "g, alice, data2_admin"] ∧
      (busyAdapter.SavePolicy exampleModel).2.engine.rows.map CasbinRule.ID =
        [4, 5, 6, 7, 8] := by
  have h := (C14_save_replaces_table busyAdapter exampleModel (by decide)).1
  rw [h]
  decide

/-- C15, as the specification states it, fails on `failingAdapter`: the engine
fails the delete-all statement of `SavePolicy` with "connection refused", and
`SavePolicy` panics with that error instead of returning it. -/
theorem C15_save_panics_counterexample :
    failingAdapter.engine.ExecDeleteAll.1 = some "connection refused" ∧
      (failingAdapter.SavePolicy exampleModel).1 = Ret.panicked "connection refused" ∧
      (failingAdapter.SavePolicy exampleModel).1 ≠ Ret.err "connection refused" := by
  decide

/-- C15, amended. A failing engine call is surfaced to the caller at once: when
the first engine call fails, `LoadPolicy`, `AddPolicy`, `BulkAddPolicy`,
`RemovePolicy`, `BulkRemovePolicy` (of at least one rule), `RemoveFilteredPolicy`
and `LoadFilteredPolicy` return that engine error unchanged, while `SavePolicy`,
whose first call is the delete-all step, panics with it; when the bulk insert of
`SavePolicy` fails, `SavePolicy` returns that error; and when a later delete of
`BulkRemovePolicy` fails, `BulkRemovePolicy` returns that error. -/
theorem C15_storage_failures_surface {M : Type} (LoadPolicyLine : String → M → M)
    (a : Adapter) (model : M) (saved : Model) (sec pType : String) (rule : List String)
    (rules : List (List String)) (fieldIndex : Int) (fieldValues : List String) (f : Filter)
    (msg : String) :
    (a.engine.failsAt 0 msg →
      (a.LoadPolicy LoadPolicyLine model).1 = Ret.err msg ∧
      (a.AddPolicy sec pType rule).1 = Ret.err msg ∧
      (a.BulkAddPolicy sec pType rules).1 = Ret.err msg ∧
      (a.RemovePolicy sec pType rule).1 = Ret.err msg ∧
      (rules ≠ [] → (a.BulkRemovePolicy sec pType rules).1 = Ret.err msg) ∧
      (-9223372036854775808 ≤ fieldIndex → fieldIndex < 9223372036854775808 →
        (fieldValues.length : Int) + 5 < 9223372036854775808 →
        (a.RemoveFilteredPolicy sec pType fieldIndex fieldValues).1 = Ret.err msg) ∧
      (a.LoadFilteredPolicy LoadPolicyLine model (FilterArg.filter f)).1 = Ret.err msg ∧
      (a.SavePolicy saved).1 = Ret.panicked msg) ∧
      (a.engine.failsAt 1 msg → (a.SavePolicy saved).1 = Ret.err msg) ∧
      (∀ k, k < rules.length → a.engine.failsAt k msg →
        (a.BulkRemovePolicy sec pType rules).1 = Ret.err msg) := by
  refine ⟨?_, ?_, ?_⟩
  · intro h
    have hc := failsAt_zero h
    refine ⟨?_, ?_, ?_, ?_, ?_, ?_, ?_, ?_⟩
    · simp only [Adapter.LoadPolicy, Find_of_call_err hc]
    · simp only [Adapter.AddPolicy, Create_of_call_err hc, Ret.ofError]
    · simp only [Adapter.BulkAddPolicy, BulkCreate_of_call_err hc, Ret.ofError]
    · simp only [Adapter.RemovePolicy, Delete_of_call_err hc, Ret.ofError]
    · intro hne
      have hlen : 0 < rules.length := List.length_pos.mpr hne
      exact ((BulkRemovePolicy_of_failsAt a sec pType rules 0 msg hlen h))
    · intro hlo hhi hlen
      simp only [Adapter.RemoveFilteredPolicy,
        removeFilteredSession_eq pType fieldIndex fieldValues hlo hhi hlen,
        Delete_of_call_err hc, Ret.ofError]
    · simp only [Adapter.LoadFilteredPolicy, Find_of_call_err hc]
    · rw [SavePolicy_of_first_err a saved hc]
  · intro h
    have hc := failsAt_succ h
    have h2 : ({ a.engine.call.2 with rows := [] } : EngineGroup).failsAt 0 msg := hc.2
    rw [SavePolicy_of_second_err a saved hc.1 (failsAt_zero h2)]
  · intro k hk h
    exact BulkRemovePolicy_of_failsAt a sec pType rules k msg hk h

/-- The amended C15 on `failingAdapter`, whose first engine call fails, and on
`flakyAdapter`, whose second one does. -/
theorem C15_storage_failures_witness :
    (failingAdapter.LoadPolicy recordLine []).1 = Ret.err "connection refused" ∧
      (failingAdapter.AddPolicy "p" "p" ["max", "data1", "read"]).1 =
        Ret.err "connection refused" ∧
      (failingAdapter.SavePolicy exampleModel).1 = Ret.panicked "connection refused" ∧
      (flakyAdapter.SavePolicy exampleModel).1 = Ret.err "deadlock" := by
  have h1 := (C15_storage_failures_surface recordLine failingAdapter [] exampleModel "p" "p"
    ["max", "data1", "read"] [] 0 [] {} "connection refused").1 (by decide)
  have h2 := (C15_storage_failures_surface recordLine flakyAdapter [] exampleModel "p" "p"
    ["max", "data1", "read"] [] 0 [] {} "deadlock").2.1 (by decide)
  exact ⟨h1.1, h1.2.1, h1.2.2.2.2.2.2.2, h2⟩

/-- C16. Add without dedup: for every table, `pType` and list of rules, a
`BulkAddPolicy` whose insert succeeds returns `nil` and appends one row
`genPolicyRuleLine(pType, rule)` per rule, in order and under consecutive new
keys, after the existing rows, which it leaves unchanged; calling `AddPolicy` on
each rule in turn, every insert succeeding, gives the same table; and no
duplicate is looked for, an added rule being stored once more than it was. -/
theorem C16_add_without_dedup (a : Adapter) (sec pType : String)
    (rules : List (List String)) (rule : List String) :
    (a.engine.call.1 = none →
      (a.BulkAddPolicy sec pType rules).1 = Ret.nil ∧
      (a.BulkAddPolicy sec pType rules).2.engine.rows =
        a.engine.rows ++ keyedFrom a.engine.nextID (rules.map (genPolicyRuleLine pType)) ∧
      (a.BulkAddPolicy sec pType rules).2.engine.rows.map CasbinRule.withoutID =
        a.engine.rows.map CasbinRule.withoutID ++ rules.map (genPolicyRuleLine pType)) ∧
      (a.engine.call.1 = none → a.engine.succeeds rules.length →
        (rules.foldl (fun b r => (b.AddPolicy sec pType r).2) a).engine.rows =
          (a.BulkAddPolicy sec pType rules).2.engine.rows) ∧
      (a.engine.call.1 = none →
        (a.AddPolicy sec pType rule).1 = Ret.nil ∧
        ((a.AddPolicy sec pType rule).2.engine.rows.map CasbinRule.withoutID).count
            (genPolicyRuleLine pType rule) =
          (a.engine.rows.map CasbinRule.withoutID).count (genPolicyRuleLine pType rule) + 1) := by
  have hbulk : a.engine.call.1 = none →
      (a.BulkAddPolicy sec pType rules).2.engine.rows =
        a.engine.rows ++ keyedFrom a.engine.nextID (rules.map (genPolicyRuleLine pType)) := by
    intro hcall
    simp only [Adapter.BulkAddPolicy, BulkCreate_of_call_ok hcall, foldl_append_singleton,
      List.nil_append, foldl_insert_eq, call_rows, call_nextID]
  have hgen : (rules.map (genPolicyRuleLine pType)).map CasbinRule.withoutID =
      rules.map (genPolicyRuleLine pType) := by
    rw [List.map_map]
    apply List.map_congr_left
    intro r _
    exact genPolicyRuleLine_withoutID pType r
  refine ⟨?_, ?_, ?_⟩
  · intro hcall
    refine ⟨?_, hbulk hcall, ?_⟩
    · simp only [Adapter.BulkAddPolicy, BulkCreate_of_call_ok hcall, Ret.ofError]
    · rw [hbulk hcall, List.map_append, keyedFrom_withoutID, hgen]
  · intro hcall hall
    rw [hbulk hcall, foldl_AddPolicy]
    exact foldl_Create_of_succeeds pType rules a.engine hall
  · intro hcall
    refine ⟨?_, ?_⟩
    · simp only [Adapter.AddPolicy, Create_of_call_ok hcall, Ret.ofError]
    · simp only [Adapter.AddPolicy, Create_of_call_ok hcall, EngineGroup.insert, call_rows,
        List.map_append, List.map_cons, List.map_nil, List.count_append]
      have hrow : CasbinRule.withoutID
          { genPolicyRuleLine pType rule with ID := a.engine.call.2.nextID } =
          genPolicyRuleLine pType rule := genPolicyRuleLine_withoutID pType rule
      rw [hrow]
      simp

/-- C16 on `busyAdapter`, whose table already holds ("p", alice, data1, read)
twice: adding that rule and a new one appends both under the keys 4 and 5. -/
theorem C16_add_without_dedup_witness :
    (busyAdapter.BulkAddPolicy "p" "p"
        [["alice", "data1", "read"], ["max", "data2", "read"]]).2.engine.rows =
      busyAdapter.engine.rows ++
        [{ ID := 4, PType := "p", V0 := "alice", V1 := "data1", V2 := "read" },
         { ID := 5, PType := "p", V0 := "max", V1 := "data2", V2 := "read" }] := by
  have h := (C16_add_without_dedup busyAdapter "p" "p"
    [["alice", "data1", "read"], ["max", "data2", "read"]] []).1 (by decide)
  rw [h.2.1]
  decide

/-- C17. Index safety of the offset window: for every Go `int` `fieldIndex`,
negative, zero or positive, and every slice `fieldValues`, the empty one
included, whenever a block of `RemoveFilteredPolicy` for a column `c` in `0..5`
passes its two guards the index `c - fieldIndex` it then evaluates lies in
`0 .. len(fieldValues) - 1`; so no block panics, the session is always built and
`RemoveFilteredPolicy` never panics. -/
theorem C17_offset_window_index_safety (a : Adapter) (sec pType : String) (fieldIndex : Int)
    (fieldValues : List String)
    (hlo : -9223372036854775808 ≤ fieldIndex) (hhi : fieldIndex < 9223372036854775808)
    (hlen : (fieldValues.length : Int) + 5 < 9223372036854775808) :
    (∀ c : Nat, c ≤ 5 →
      fieldIndex ≤ (c : Int) ∧
          wrapInt64 (fieldIndex + (fieldValues.length : Int)) > (c : Int) →
        (0 ≤ wrapInt64 ((c : Int) - fieldIndex) ∧
          wrapInt64 ((c : Int) - fieldIndex) < (fieldValues.length : Int)) ∧
        goIndex fieldValues (wrapInt64 ((c : Int) - fieldIndex)) ≠ none) ∧
      (∀ (col : Column) (c : Nat) (session : Session), c ≤ 5 →
        filterFieldStep col (c : Int) fieldIndex
          (wrapInt64 (fieldIndex + (fieldValues.length : Int))) fieldValues session ≠ none) ∧
      removeFilteredSession pType fieldIndex fieldValues ≠ none ∧
      (∀ msg, (a.RemoveFilteredPolicy sec pType fieldIndex fieldValues).1 ≠
        Ret.panicked msg) := by
  refine ⟨?_, ?_, ?_, ?_⟩
  · intro c hc hguard
    have hin : 0 ≤ wrapInt64 ((c : Int) - fieldIndex) ∧
        wrapInt64 ((c : Int) - fieldIndex) < (fieldValues.length : Int) := by
      unfold wrapInt64 at hguard ⊢
      omega
    refine ⟨hin, ?_⟩
    have hlt : (wrapInt64 ((c : Int) - fieldIndex)).toNat < fieldValues.length := by omega
    simp only [goIndex, if_pos hin, List.getElem?_eq_getElem hlt, ne_eq, reduceCtorEq,
      not_false_eq_true]
  · intro col c session hc
    rw [filterFieldStep_eq col c hc fieldIndex fieldValues session hlo hhi hlen]
    simp
  · rw [removeFilteredSession_eq pType fieldIndex fieldValues hlo hhi hlen]
    simp
  · intro msg
    simp only [Adapter.RemoveFilteredPolicy,
      removeFilteredSession_eq pType fieldIndex fieldValues hlo hhi hlen]
    cases (a.engine.Delete
      (Cond.eq Column.p_type pType :: offsetConds fieldIndex fieldValues)).1 <;>
      simp [Ret.ofError]

/-- C17 at a negative offset, at an offset past the last column with no value,
and at the largest `int`: each session is built. -/
theorem C17_offset_window_witness :
    removeFilteredSession "p" (-2) ["", "x", "alice", "data1"] =
        some [Cond.eq Column.p_type "p", Cond.eq Column.v0 "alice", Cond.eq Column.v1 "data1"] ∧
      removeFilteredSession "p" 7 [] = some [Cond.eq Column.p_type "p"] ∧
      removeFilteredSession "p" 9223372036854775807 ["x"] ≠ none := by
  have h := (C17_offset_window_index_safety exampleAdapter "p" "p" 9223372036854775807 ["x"]
    (by decide) (by decide) (by decide)).2.2.1
  exact ⟨by decide, by decide, h⟩

/-- C18. Round trip with empty arguments: for every `pType` and every argument
list of length at most six, elements possibly empty, the fields
`loadPolicyRuleLine` joins for the row `genPolicyRuleLine` produced are `pType`
followed by the arguments without their trailing run of empty strings, interior
empty arguments kept, and no field at all (the empty rule text) when every
argument is empty; hence the decoded fields are `pType` followed by the original
arguments iff the argument list is non-empty and its last element is non-empty. -/
theorem C18_round_trip_with_empty_arguments (pType : String) (args : List String)
    (hlen : args.length ≤ 6) :
    loadPolicyRuleText (genPolicyRuleLine pType args) =
        ", ".intercalate (emittedFields (genPolicyRuleLine pType args)) ∧
      emittedFields (genPolicyRuleLine pType args) =
        (if dropTrailingEmpty args = [] then [] else pType :: dropTrailingEmpty args) ∧
      ((∀ x ∈ args, x = "") →
        emittedFields (genPolicyRuleLine pType args) = [] ∧
        loadPolicyRuleText (genPolicyRuleLine pType args) = "") ∧
      (emittedFields (genPolicyRuleLine pType args) = pType :: args ↔
        args ≠ [] ∧ args.getLast? ≠ some "") := by
  have hjoin := loadPolicyRuleText_eq_join (genPolicyRuleLine pType args)
  have hfields := emittedFields_genPolicyRuleLine pType args hlen
  refine ⟨hjoin, hfields, ?_, ?_⟩
  · intro hall
    have hnil : emittedFields (genPolicyRuleLine pType args) = [] := by
      rw [hfields, if_pos (dropTrailingEmpty_eq_nil args hall)]
    refine ⟨hnil, ?_⟩
    rw [hjoin, hnil]
    rfl
  · rw [hfields]
    by_cases hd : dropTrailingEmpty args = []
    · rw [if_pos hd]
      constructor
      · intro h
        cases h
      · rintro ⟨hne, hlast⟩
        have hself := (dropTrailingEmpty_eq_self args).mpr (Or.inr hlast)
        exact absurd (hself.symm.trans hd) hne
    · rw [if_neg hd]
      constructor
      · intro h
        have hself : dropTrailingEmpty args = args := by
          simpa using h
        have hne : args ≠ [] := fun h0 => hd (hself.trans h0)
        refine ⟨hne, ?_⟩
        rcases (dropTrailingEmpty_eq_self args).mp hself with h0 | hl
        · exact absurd h0 hne
        · exact hl
      · rintro ⟨_, hlast⟩
        rw [(dropTrailingEmpty_eq_self args).mpr (Or.inr hlast)]

/-- C18 on three argument lists: an interior empty argument is kept, trailing
empty arguments are dropped, and all-empty arguments decode to nothing. -/
theorem C18_round_trip_with_empty_arguments_witness :
    emittedFields (genPolicyRuleLine "p" ["alice", "", "read", "", ""]) =
        ["p", "alice", "", "read"] ∧
      loadPolicyRuleText (genPolicyRuleLine "p" ["alice", "", "read", "", ""]) =
        "p, alice, , read" ∧
      loadPolicyRuleText (genPolicyRuleLine "p" ["", ""]) = "" := by
  have h := C18_round_trip_with_empty_arguments "p" ["alice", "", "read", "", ""] (by decide)
  have h0 := C18_round_trip_with_empty_arguments "p" ["", ""] (by decide)
  exact ⟨h.2.1.trans (by decide), h.1.trans (by decide), (h0.2.2.1 (by decide)).2⟩

/-- C19. Degenerate offset filter: for every `pType`, whenever `fieldIndex >= 6`,
or `fieldIndex + len(fieldValues) <= 0`, or every supplied value that falls on a
column in `0..5` is the empty string (the empty `fieldValues` included),
`RemoveFilteredPolicy` builds the single clause `p_type = pType`; when the
delete succeeds it removes every row of that policy type and no other row. -/
theorem C19_degenerate_offset_filter (a : Adapter) (sec pType : String) (fieldIndex : Int)
    (fieldValues : List String)
    (hlo : -9223372036854775808 ≤ fieldIndex) (hhi : fieldIndex < 9223372036854775808)
    (hlen : (fieldValues.length : Int) + 5 < 9223372036854775808)
    (hdegenerate : 6 ≤ fieldIndex ∨ fieldIndex + (fieldValues.length : Int) ≤ 0 ∨
      ∀ c : Nat, c ≤ 5 → fieldIndex ≤ (c : Int) →
        (c : Int) < fieldIndex + (fieldValues.length : Int) →
        fieldValues[((c : Int) - fieldIndex).toNat]? = some "") :
    removeFilteredSession pType fieldIndex fieldValues = some [Cond.eq Column.p_type pType] ∧
      (∀ r : CasbinRule,
        Session.selects [Cond.eq Column.p_type pType] r = true ↔ r.PType = pType) ∧
      (a.engine.call.1 = none →
        (a.RemoveFilteredPolicy sec pType fieldIndex fieldValues).1 = Ret.nil ∧
        (a.RemoveFilteredPolicy sec pType fieldIndex fieldValues).2.engine.rows =
          a.engine.rows.filter (fun r => decide (r.PType ≠ pType))) := by
  have hnone : ∀ c : Nat, c ≤ 5 → offsetDemand fieldIndex fieldValues c = none := by
    intro c hc
    cases hd : offsetDemand fieldIndex fieldValues c with
    | none => rfl
    | some v =>
      obtain ⟨hw, hget, hv⟩ := (offsetDemand_eq_some fieldIndex fieldValues c v).mp hd
      rcases hdegenerate with h6 | h0 | hall
      · omega
      · omega
      · have := hall c hc hw.1 hw.2
        rw [hget] at this
        exact absurd (Option.some.inj this) hv
  have hconds : offsetConds fieldIndex fieldValues = [] := by
    have hrange : List.range 6 = [0, 1, 2, 3, 4, 5] := by decide
    simp [offsetConds, hrange, filterMap_cons_toList, hnone]
  have hsession : removeFilteredSession pType fieldIndex fieldValues =
      some [Cond.eq Column.p_type pType] := by
    rw [removeFilteredSession_eq pType fieldIndex fieldValues hlo hhi hlen, hconds]
  refine ⟨hsession, ?_, ?_⟩
  · intro r
    simp [Session.selects, Cond.holds, CasbinRule.col]
  · intro hcall
    simp only [Adapter.RemoveFilteredPolicy, hsession, Delete_of_call_ok hcall, Ret.ofError,
      true_and]
    apply List.filter_congr
    intro r _
    simp [Session.selects, Cond.holds, CasbinRule.col]

/-- C19 with no value on a table holding the policy types "p" and "g": every "p"
row goes and the "g" row stays. -/
theorem C19_degenerate_offset_filter_witness :
    ((exampleAdapter.SavePolicy exampleModel).2.RemoveFilteredPolicy "p" "p" 0
        []).2.engine.rows.map loadPolicyRuleText = ["g, alice, data2_admin"] := by
  have h := (C19_degenerate_offset_filter (exampleAdapter.SavePolicy exampleModel).2 "p" "p" 0
    [] (by decide) (by decide) (by decide) (Or.inr (Or.inl (by decide)))).2.2 (by decide)
  rw [h.2]
  decide

/-- C20. The decoded text is ambiguous across arities: the tuples ("p", ["a, b"])
and ("p", ["a", "b"]) have the same policy type, arity at most six and no empty
argument, their encodings are distinct rows, and `loadPolicyRuleLine` computes
the same rule text for both, so the text does not determine the row. -/
theorem C20_decoded_text_ambiguous :
    (["a, b"] : List String) ≠ ["a", "b"] ∧
      ((["a, b"] : List String).length ≤ 6 ∧ (["a", "b"] : List String).length ≤ 6) ∧
      ((∀ x ∈ (["a, b"] : List String), x ≠ "") ∧ ∀ x ∈ (["a", "b"] : List String), x ≠ "") ∧
      genPolicyRuleLine "p" ["a, b"] ≠ genPolicyRuleLine "p" ["a", "b"] ∧
      loadPolicyRuleText (genPolicyRuleLine "p" ["a, b"]) =
        loadPolicyRuleText (genPolicyRuleLine "p" ["a", "b"]) ∧
      loadPolicyRuleText (genPolicyRuleLine "p" ["a, b"]) = "p, a, b" ∧
      ¬ Function.Injective loadPolicyRuleText := by
  refine ⟨by decide, by decide, by decide, by decide, by decide, by decide, ?_⟩
  intro hinj
  have h : genPolicyRuleLine "p" ["a, b"] = genPolicyRuleLine "p" ["a", "b"] :=
    hinj (by decide)
  exact absurd h (by decide)

end Sqldbadapter
